import Mathlib

/-!
Verification of the NPUCore kernel's process-execution core against its
natural-language specification.  Every definition below is a shallow
embedding of a function or data structure of the kernel source
(`os/src/task/*.rs`, `os/src/mm/*.rs`, `os/src/syscall/*.rs`); machine
integers are modelled as `Nat` with explicit wrap-arounds where they
matter, fallible code returns `Option`/`Except`, and stateful code is
explicit state passing.
-/

namespace NPUCore

/-! ## Errno constants

Modelled from the spec: the files `os/src/syscall/errno.rs` and
`os/src/syscall/syscall_id.rs` are referenced by `os/src/syscall/mod.rs`
but are absent from the source tree.  The spec fixes the convention
"negative values in [-4095, -1] encoding errno" (Linux-compatible), so
the standard Linux values are used; no claim depends on the numeric
values, only on the constants being distinct from success. -/

/-- Modelled from the spec: success return value 0. -/
def SUCCESS : Int := 0

/-- Modelled from the spec: Linux `EAGAIN` errno, returned as `-11`. -/
def EAGAIN : Int := -11

/-- Modelled from the spec: Linux `EINTR` errno, returned as `-4`. -/
def EINTR : Int := -4

/-- Modelled from the spec: Linux `ENOSYS` errno, returned as `-38`. -/
def ENOSYS : Int := -38

/-! ## Scheduler constants (`os/src/task/cfs_scheduler.rs`) -/

/-- `SCHED_LATENCY_NS`: target latency, 6 ms in nanoseconds. -/
def SCHED_LATENCY_NS : Nat := 6000000

/-- `MIN_GRANULARITY_NS`: minimum time slice, 0.75 ms in nanoseconds. -/
def MIN_GRANULARITY_NS : Nat := 750000

/-- `NICE_0_WEIGHT`: weight of a nice-0 task. -/
def NICE_0_WEIGHT : Nat := 1024

/-- Modelled from the spec: the sentinel `TASK_NOT_RUNNING` is declared in
`os/src/task/task.rs` in the full repository but the declaration is
missing from this snapshot of the file; the spec describes it as the
"sentinel `NOT_RUNNING`" value of the atomic `running_on_cpu` field,
distinct from every cpu id.  It is modelled as `usize::MAX`. -/
def TASK_NOT_RUNNING : Nat := 2 ^ 64 - 1

/-! ## Task model

A flattened model of `TaskControlBlock` together with its
`TaskControlBlockInner` fields and `SchedEntity`
(`os/src/task/task.rs`, `os/src/task/cfs_scheduler.rs`).  The atomic
fields `running_on_cpu` and `on_cpu` are modelled from the spec
("Atomic flags: `running_on_cpu` (sentinel `NOT_RUNNING` or cpu id),
`on_cpu` (in-switch barrier)") because their declarations are missing
from the snapshot of `task.rs`, while all their uses are in
`processor.rs` and `cfs_scheduler.rs`. -/

/-- `TaskStatus` from `os/src/task/task.rs`. -/
inductive TaskStatus where
  | ready
  | running
  | zombie
  | interruptible
  deriving Repr, DecidableEq

/-- `SchedPolicy` from `os/src/task/cfs_scheduler.rs`. -/
inductive SchedPolicy where
  | normal
  | fifo
  | roundRobin
  | batch
  | idle
  deriving Repr, DecidableEq

/-- Flattened task control block: `pid`/`tgid` identity, the
`SchedEntity` fields used by the scheduler, the saved context's return
address `task_cx.ra`, and the two atomic flags plus status fields
mutated by `run_tasks`. -/
structure Task where
  pid : Nat
  tgid : Nat
  vruntime : Nat
  weight : Nat
  sum_exec_runtime : Nat
  rt_priority : Nat
  policy : SchedPolicy
  cpu_affinity : Nat
  ra : Nat
  running_on_cpu : Nat
  on_cpu : Bool
  task_status : TaskStatus
  last_cpu : Nat
  kernel_tp : Nat
  deriving Repr, DecidableEq

/-- `SchedEntity::can_run_on`: `(self.cpu_affinity & (1 << cpu)) != 0`. -/
def Task.can_run_on (t : Task) (cpu : Nat) : Bool :=
  t.cpu_affinity &&& (1 <<< cpu) != 0

/-! ## Process state machine (`os/src/task/state_machine.rs`) -/

/-- `ProcessState` with its explicit discriminants. -/
inductive ProcessState where
  | created
  | ready
  | running
  | blocked
  | zombie
  | exited
  | stopped
  deriving Repr, DecidableEq, Fintype

/-- `StateTransitionValidator::is_valid_transition`, clause for clause. -/
def is_valid_transition (from_ to_ : ProcessState) : Bool :=
  match from_, to_ with
  | .created, .ready => true
  | .ready, .running => true
  | .ready, .zombie => true
  | .running, .ready => true
  | .running, .blocked => true
  | .running, .zombie => true
  | .running, .stopped => true
  | .blocked, .ready => true
  | .blocked, .zombie => true
  | .zombie, .exited => true
  | .stopped, .ready => true
  | .stopped, .zombie => true
  | _, _ => false

/-- The transition set listed by the specification sentence behind claim
C7: Created→Ready, Ready→Running, Running→Ready,
Running→Interruptible(Blocked), Running→Zombie, Zombie→Exited.  This
follows the spec's words, for comparison with `is_valid_transition`. -/
def specClaimedTransition (from_ to_ : ProcessState) : Bool :=
  match from_, to_ with
  | .created, .ready => true
  | .ready, .running => true
  | .running, .ready => true
  | .running, .blocked => true
  | .running, .zombie => true
  | .zombie, .exited => true
  | _, _ => false

/-! ## Syscall dispatch (`os/src/syscall/mod.rs`, `os/src/syscall/dispatch.rs`)

The dispatch table of `dispatch_syscall` matches on the constants of the
missing file `os/src/syscall/syscall_id.rs`, so the table contents are a
parameter here; the dispatch structure itself (`handler.map`, the
fallback to `handle_unsupported_syscall`) is from the source. -/

/-- The six raw syscall arguments (`[usize; 6]`). -/
def SyscallArgs : Type := Fin 6 → Nat

/-- A typed syscall handler as stored in the dispatch table. -/
def SyscallHandler : Type := SyscallArgs → Int

/-- `handle_unsupported_syscall`: posts SIGSYS to the current task when
one exists and returns `ENOSYS`.  The returned Bool records whether
SIGSYS was posted. -/
def handle_unsupported_syscall (hasCurrentTask : Bool) : Int × Bool :=
  (ENOSYS, hasCurrentTask)

/-- `dispatch_syscall`: look the number up in the table and invoke the
handler on the raw arguments (`handler.map (h => (name, h args))`, the
name dropped here). -/
def dispatch_syscall (table : Nat → Option SyscallHandler) (id : Nat)
    (args : SyscallArgs) : Option Int :=
  (table id).map (fun h => h args)

/-- `syscall` (the entry point in `os/src/syscall/mod.rs`): dispatch, or
fall back to `handle_unsupported_syscall`.  The second component records
whether SIGSYS was posted. -/
def syscallEntry (table : Nat → Option SyscallHandler) (id : Nat)
    (args : SyscallArgs) (hasCurrentTask : Bool) : Int × Bool :=
  match dispatch_syscall table id args with
  | some r => (r, false)
  | none => handle_unsupported_syscall hasCurrentTask

/-! ## Futex wait (`os/src/task/threads.rs`) -/

/-- Association-list lookup of a wait queue (queues hold task ids,
standing for the weak task references). -/
def futexLookup (addr : Nat) : List (Nat × List Nat) → Option (List Nat)
  | [] => none
  | (a, q) :: rest => if a = addr then some q else futexLookup addr rest

/-- `BTreeMap::remove`: drop the entry for `addr`, returning its queue. -/
def futexRemove (addr : Nat) : List (Nat × List Nat) →
    Option (List Nat) × List (Nat × List Nat)
  | [] => (none, [])
  | (a, q) :: rest =>
    if a = addr then (some q, rest)
    else
      let r := futexRemove addr rest
      (r.1, (a, q) :: r.2)

/-- Result record of `do_futex_wait`: return value, futex map, timeout
heap (as the list of registered `(task, deadline)` pairs), and whether
the task blocked (`block_current_and_run_next` reached). -/
structure FutexWaitResult where
  ret : Int
  futex : List (Nat × List Nat)
  timeouts : List (Nat × Nat)
  blocked : Bool
  deriving Repr, DecidableEq

/-- `Signals::difference`: the bits pending but not blocked.  The
bitflags type `Signals` lives in the missing `os/src/task/signal.rs`;
modelled from the spec ("for each signal in `pending & ~blocked`") as
the bitwise difference. -/
def sigDifference (pending blocked : Nat) : Nat :=
  Nat.ldiff pending blocked

/-- `do_futex_wait`.  `wordVal` is the value of `*futex_word` at check
time, `addr` its address key, `tid` the current task, `now` the current
time used to make a relative timeout absolute, and
`sigpending`/`sigmask` the signal state observed after the wake-up. -/
def do_futex_wait (wordVal val : Nat) (addr : Nat) (timeout : Option Nat)
    (now : Nat) (tid : Nat) (fx : List (Nat × List Nat))
    (touts : List (Nat × Nat)) (sigpending sigmask : Nat) :
    FutexWaitResult :=
  let timeoutAbs := timeout.map (· + now)
  if wordVal ≠ val then
    ⟨EAGAIN, fx, touts, false⟩
  else
    let r := futexRemove addr fx
    let wait_queue := (r.1.getD []) ++ [tid]
    let fx2 := (addr, wait_queue) :: r.2
    let touts2 := match timeoutAbs with
      | some d => touts ++ [(tid, d)]
      | none => touts
    let ret := if sigDifference sigpending sigmask ≠ 0 then EINTR else SUCCESS
    ⟨ret, fx2, touts2, true⟩

/-! ## Stack frame allocator (`os/src/mm/frame_allocator.rs`) -/

/-- Physical memory contents: page number to dword-index to value. -/
def Mem : Type := Nat → Nat → Nat

/-- `FrameTracker::new` zeroes every dword of the page. -/
def frameTrackerNew (mem : Mem) (ppn : Nat) : Mem :=
  fun p i => if p = ppn then 0 else mem p i

/-- `StackFrameAllocator`: monotone cursor plus recycled-frame stack.
The `recycled` vector is modelled with its top (the `Vec` back, popped
first) at the list head. -/
structure StackFrameAllocator where
  current : Nat
  end_ : Nat
  recycled : List Nat
  deriving Repr, DecidableEq

/-- `StackFrameAllocator::unallocated_frames`. -/
def StackFrameAllocator.unallocated_frames (a : StackFrameAllocator) : Nat :=
  a.end_ - a.current + a.recycled.length

/-- `StackFrameAllocator::alloc`.  `zero_init` is the crate feature of
the same name (the fresh-frame branch skips zeroing when it is
enabled); Modelled from the spec: the crate manifest is absent from the
source tree, and the spec contract ("returns a zero-initialised page or
`None`") corresponds to the feature being disabled. -/
def StackFrameAllocator.alloc (zero_init : Bool) (a : StackFrameAllocator)
    (mem : Mem) : Option Nat × StackFrameAllocator × Mem :=
  match a.recycled with
  | ppn :: rest => (some ppn, { a with recycled := rest }, frameTrackerNew mem ppn)
  | [] =>
    if a.current = a.end_ then (none, a, mem)
    else
      (some a.current, { a with current := a.current + 1 },
        if zero_init then mem else frameTrackerNew mem a.current)

/-! ## Dispatcher loop step (`os/src/task/processor.rs`, `run_tasks`)

One observation of the code between `fetch_task()` succeeding and
`__switch`: the spin on `on_cpu`, the `running_on_cpu` CAS, and the
handoff state written before the context switch.  `none` models one
iteration of the spin loop (the task's `on_cpu` was observed `true`);
a `some` result is reached only with `on_cpu` observed `false`. -/

/-- The fatal outcomes of the dispatch step. -/
inductive RunPanic where
  | doubleRun (pid other_cpu : Nat)
  | invalidContext (pid ra : Nat)
  deriving Repr, DecidableEq

/-- Whether `ra` fails the sanity check before `__switch`
(`next_ra == 0 || next_ra < 0x80000000 || next_ra > 0xffffffff00000000`). -/
def raInvalid (ra : Nat) : Bool :=
  ra = 0 || ra < 0x80000000 || ra > 0xffffffff00000000

/-- One step of `run_tasks` for the fetched task `t` on hart `cpu`. -/
def runTaskStep (cpu : Nat) (t : Task) : Option (Except RunPanic Task) :=
  if t.on_cpu then
    none
  else if t.running_on_cpu ≠ TASK_NOT_RUNNING then
    some (.error (.doubleRun t.pid t.running_on_cpu))
  else
    let t1 : Task :=
      { t with running_on_cpu := cpu, kernel_tp := cpu,
               task_status := .running, last_cpu := cpu }
    if raInvalid t1.ra then
      some (.error (.invalidContext t1.pid t1.ra))
    else
      some (.ok { t1 with on_cpu := true })

/-! ## CFS run queue (`os/src/task/cfs_scheduler.rs`)

The `BTreeMap<RunQueueKey, Arc<TaskControlBlock>>` keyed by
`(vruntime, tid)` is modelled as a list of tasks sorted by that key;
`insert` replaces an entry with an equal key. -/

/-- Strict `RunQueueKey` order: `vruntime` then `tid` (`tid` is
`task.pid.0` at enqueue time). -/
def cfsKeyLt (a b : Task) : Bool :=
  a.vruntime < b.vruntime || (a.vruntime = b.vruntime && a.pid < b.pid)

/-- `RunQueueKey` equality. -/
def cfsKeyEq (a b : Task) : Bool :=
  a.vruntime = b.vruntime && a.pid = b.pid

/-- Sorted insertion with `BTreeMap::insert` semantics (replace on an
equal key). -/
def cfsInsert (t : Task) : List Task → List Task
  | [] => [t]
  | x :: xs =>
    if cfsKeyLt t x then t :: x :: xs
    else if cfsKeyEq t x then t :: xs
    else x :: cfsInsert t xs

/-- `BTreeMap::remove` by the key of `t`: drop the first entry with an
equal key and return it. -/
def cfsRemoveKey (t : Task) : List Task → Option Task × List Task
  | [] => (none, [])
  | x :: xs =>
    if cfsKeyEq t x then (some x, xs)
    else
      let r := cfsRemoveKey t xs
      (r.1, x :: r.2)

/-- `CfsRunQueue` state: ordered task map, `min_vruntime`,
`total_weight`, `nr_running`. -/
structure CfsRunQueue where
  tasks : List Task
  min_vruntime : Nat
  total_weight : Nat
  nr_running : Nat
  deriving Repr, DecidableEq

/-- `CfsRunQueue::new`. -/
def CfsRunQueue.new : CfsRunQueue :=
  ⟨[], 0, 0, 0⟩

/-- `CfsRunQueue::len` (`nr_running`). -/
def CfsRunQueue.len (q : CfsRunQueue) : Nat :=
  q.nr_running

/-- `CfsRunQueue::place_entity`: new tasks start at
`min_vruntime + SCHED_LATENCY_NS/2`; an entity never moves backwards. -/
def CfsRunQueue.place_entity (q : CfsRunQueue) (t : Task) (initial : Bool) : Task :=
  let vruntime := q.min_vruntime
  let vruntime := if initial then vruntime + SCHED_LATENCY_NS / 2 else vruntime
  { t with vruntime := max t.vruntime vruntime }

/-- `CfsRunQueue::enqueue`. -/
def CfsRunQueue.enqueue (q : CfsRunQueue) (t : Task) (is_new : Bool) : CfsRunQueue :=
  let e := q.place_entity t is_new
  { q with tasks := cfsInsert e q.tasks,
           total_weight := q.total_weight + e.weight,
           nr_running := q.nr_running + 1 }

/-- `CfsRunQueue::dequeue`: remove by the key of the passed entity;
only on success subtract the passed entity's weight and decrement
`nr_running` (both `saturating_sub`, i.e. `Nat` subtraction). -/
def CfsRunQueue.dequeue (q : CfsRunQueue) (t : Task) : CfsRunQueue :=
  match cfsRemoveKey t q.tasks with
  | (some _, rest) =>
    { q with tasks := rest,
             total_weight := q.total_weight - t.weight,
             nr_running := q.nr_running - 1 }
  | (none, _) => q

/-- `CfsRunQueue::pick_next`: pop the leftmost entry, raise
`min_vruntime`, and subtract the constant `NICE_0_WEIGHT` from
`total_weight` (the source comment says "Approximate"). -/
def CfsRunQueue.pick_next (q : CfsRunQueue) : Option Task × CfsRunQueue :=
  match q.tasks with
  | [] => (none, q)
  | x :: rest =>
    (some x,
      { q with tasks := rest,
               min_vruntime := max q.min_vruntime x.vruntime,
               total_weight := q.total_weight - NICE_0_WEIGHT,
               nr_running := q.nr_running - 1 })

/-- The candidate filter of `CfsRunQueue::steal_for_cpu`: skip tasks
with `running_on_cpu != TASK_NOT_RUNNING`, skip tasks whose saved
`task_cx.ra` is `0` or below `0x80000000`, then require cpu affinity. -/
def stealPred (target : Nat) (t : Task) : Bool :=
  if t.running_on_cpu ≠ TASK_NOT_RUNNING then false
  else if t.ra = 0 || t.ra < 0x80000000 then false
  else t.can_run_on target

/-- `CfsRunQueue::steal_for_cpu`: search from the back (highest
vruntime) for an eligible candidate and remove it, subtracting the
removed task's own weight. -/
def CfsRunQueue.steal_for_cpu (q : CfsRunQueue) (target : Nat) :
    Option Task × CfsRunQueue :=
  match q.tasks.reverse.find? (stealPred target) with
  | none => (none, q)
  | some t =>
    match cfsRemoveKey t q.tasks with
    | (some t2, rest) =>
      (some t2,
        { q with tasks := rest,
                 total_weight := q.total_weight - t2.weight,
                 nr_running := q.nr_running - 1 })
    | (none, _) => (none, q)

/-- `CfsRunQueue::find_by_pid`. -/
def CfsRunQueue.find_by_pid (q : CfsRunQueue) (pid : Nat) : Option Task :=
  q.tasks.find? (fun t => t.pid == pid)

/-- `CfsRunQueue::find_by_tgid`. -/
def CfsRunQueue.find_by_tgid (q : CfsRunQueue) (tgid : Nat) : Option Task :=
  q.tasks.find? (fun t => t.tgid == tgid)

/-- The inner loop of `CfsRunQueue::remove_by_tgid`: remove each
collected key in turn, subtracting each removed task's weight. -/
def cfsRemoveByTgidGo : List Task → CfsRunQueue → List Task →
    CfsRunQueue × List Task
  | [], q, removed => (q, removed)
  | k :: ks, q, removed =>
    match cfsRemoveKey k q.tasks with
    | (some t, rest) =>
      cfsRemoveByTgidGo ks
        { q with tasks := rest,
                 total_weight := q.total_weight - t.weight,
                 nr_running := q.nr_running - 1 }
        (removed ++ [t])
    | (none, _) => cfsRemoveByTgidGo ks q removed

/-- `CfsRunQueue::remove_by_tgid`. -/
def CfsRunQueue.remove_by_tgid (q : CfsRunQueue) (tgid : Nat) :
    CfsRunQueue × List Task :=
  cfsRemoveByTgidGo (q.tasks.filter (fun t => t.tgid == tgid)) q []

/-! ## RT run queue (`os/src/task/sched_class.rs`) -/

/-- `RR_TIMESLICE_NS` (100 ms). -/
def RR_TIMESLICE_NS : Nat := 100000000

/-- Clearing a bit of the `u128` bitmap:
`bitmap &= !(1u128 << prio)`. -/
def clearBit128 (b p : Nat) : Nat :=
  b &&& ((2 ^ 128 - 1) ^^^ (1 <<< p))

/-- `RtRunQueue`: 100 per-priority FIFOs, a `u128` non-empty bitmap,
and `nr_running`. -/
structure RtRunQueue where
  queues : List (List Task)
  bitmap : Nat
  nr_running : Nat
  deriving Repr, DecidableEq

/-- `RtRunQueue::new`. -/
def RtRunQueue.new : RtRunQueue :=
  ⟨List.replicate 100 [], 0, 0⟩

/-- `RtRunQueue::len`. -/
def RtRunQueue.len (q : RtRunQueue) : Nat :=
  q.nr_running

/-- `RtRunQueue::enqueue`: `prio = min(rt_priority, 99)`, priority 0 is
rejected; otherwise push to the back, set the bitmap bit, increment
`nr_running`. -/
def RtRunQueue.enqueue (q : RtRunQueue) (t : Task) : RtRunQueue :=
  if min t.rt_priority 99 = 0 then q
  else
    { queues := q.queues.set (min t.rt_priority 99)
        ((q.queues.getD (min t.rt_priority 99) []) ++ [t]),
      bitmap := q.bitmap ||| (1 <<< min t.rt_priority 99),
      nr_running := q.nr_running + 1 }

/-- `RtRunQueue::dequeue`: remove the first pointer-equal occurrence,
decrement `nr_running` (saturating), clear the bit if the FIFO became
empty. -/
def RtRunQueue.dequeue (q : RtRunQueue) (t : Task) : RtRunQueue :=
  if min t.rt_priority 99 = 0 then q
  else if t ∈ q.queues.getD (min t.rt_priority 99) [] then
    { queues := q.queues.set (min t.rt_priority 99)
        ((q.queues.getD (min t.rt_priority 99) []).erase t),
      bitmap := if ((q.queues.getD (min t.rt_priority 99) []).erase t).isEmpty
          then clearBit128 q.bitmap (min t.rt_priority 99) else q.bitmap,
      nr_running := q.nr_running - 1 }
  else q

/-- `RtRunQueue::pick_next`: `127 - bitmap.leading_zeros()` is the
highest set bit, i.e. `Nat.log2` of a nonzero bitmap; pop the front of
that FIFO (`pop_front()?` returns `None` on an empty FIFO without any
update). -/
def RtRunQueue.pick_next (q : RtRunQueue) : Option Task × RtRunQueue :=
  if q.bitmap = 0 then (none, q)
  else
    match q.queues.getD (Nat.log2 q.bitmap) [] with
    | [] => (none, q)
    | t :: rest =>
      (some t,
        { queues := q.queues.set (Nat.log2 q.bitmap) rest,
          bitmap := if rest.isEmpty then clearBit128 q.bitmap (Nat.log2 q.bitmap)
                    else q.bitmap,
          nr_running := q.nr_running - 1 })

/-- `RtRunQueue::requeue_rr`: push to the back of the task's own
priority and set the bit; `nr_running` is not touched. -/
def RtRunQueue.requeue_rr (q : RtRunQueue) (t : Task) : RtRunQueue :=
  if min t.rt_priority 99 = 0 then q
  else
    { q with
        queues := q.queues.set (min t.rt_priority 99)
          ((q.queues.getD (min t.rt_priority 99) []) ++ [t]),
        bitmap := q.bitmap ||| (1 <<< min t.rt_priority 99) }

/-- `RtRunQueue::find_by_pid` (scan the FIFOs in priority order). -/
def RtRunQueue.find_by_pid (q : RtRunQueue) (pid : Nat) : Option Task :=
  q.queues.flatten.find? (fun t => t.pid == pid)

/-- `RtRunQueue::find_by_tgid`. -/
def RtRunQueue.find_by_tgid (q : RtRunQueue) (tgid : Nat) : Option Task :=
  q.queues.flatten.find? (fun t => t.tgid == tgid)

/-! ## Idle run queue (`os/src/task/sched_class.rs`) -/

/-- `IdleRunQueue`: a plain FIFO. -/
structure IdleRunQueue where
  queue : List Task
  deriving Repr, DecidableEq

/-- `IdleRunQueue::new`. -/
def IdleRunQueue.new : IdleRunQueue :=
  ⟨[]⟩

/-- `IdleRunQueue::len`. -/
def IdleRunQueue.len (q : IdleRunQueue) : Nat :=
  q.queue.length

/-- `IdleRunQueue::enqueue`. -/
def IdleRunQueue.enqueue (q : IdleRunQueue) (t : Task) : IdleRunQueue :=
  ⟨q.queue ++ [t]⟩

/-- `IdleRunQueue::pick_next`. -/
def IdleRunQueue.pick_next (q : IdleRunQueue) : Option Task × IdleRunQueue :=
  match q.queue with
  | [] => (none, q)
  | t :: rest => (some t, ⟨rest⟩)

/-- `IdleRunQueue::find_by_pid`. -/
def IdleRunQueue.find_by_pid (q : IdleRunQueue) (pid : Nat) : Option Task :=
  q.queue.find? (fun t => t.pid == pid)

/-- `IdleRunQueue::find_by_tgid`. -/
def IdleRunQueue.find_by_tgid (q : IdleRunQueue) (tgid : Nat) : Option Task :=
  q.queue.find? (fun t => t.tgid == tgid)

/-! ## Task manager (`os/src/task/manager.rs`) -/

/-- `SchedClass` from `os/src/task/sched_class.rs`. -/
inductive SchedClass where
  | rt
  | cfs
  | idle
  deriving Repr, DecidableEq

/-- `get_sched_class`. -/
def get_sched_class (t : Task) : SchedClass :=
  match t.policy with
  | .fifo => .rt
  | .roundRobin => .rt
  | .idle => .idle
  | .normal => .cfs
  | .batch => .cfs

/-- `TaskManager` (the `oom_handler` active tracker is omitted; it does
not affect queue contents). -/
structure TaskManager where
  rt_rq : RtRunQueue
  cfs_rq : CfsRunQueue
  idle_rq : IdleRunQueue
  interruptible_queue : List Task
  deriving Repr, DecidableEq

/-- `TaskManager::new`. -/
def TaskManager.new : TaskManager :=
  ⟨RtRunQueue.new, CfsRunQueue.new, IdleRunQueue.new, []⟩

/-- `TaskManager::add`: route by scheduling class; a CFS task counts as
new when `sum_exec_runtime == 0`. -/
def TaskManager.add (m : TaskManager) (t : Task) : TaskManager :=
  match get_sched_class t with
  | .rt => { m with rt_rq := m.rt_rq.enqueue t }
  | .cfs => { m with cfs_rq := m.cfs_rq.enqueue t (t.sum_exec_runtime = 0) }
  | .idle => { m with idle_rq := m.idle_rq.enqueue t }

/-- `TaskManager::fetch`: RT, then CFS, then Idle. -/
def TaskManager.fetch (m : TaskManager) : Option Task × TaskManager :=
  match m.rt_rq.pick_next with
  | (some t, rq) => (some t, { m with rt_rq := rq })
  | (none, _) =>
    match m.cfs_rq.pick_next with
    | (some t, cq) => (some t, { m with cfs_rq := cq })
    | (none, _) =>
      match m.idle_rq.pick_next with
      | (some t, iq) => (some t, { m with idle_rq := iq })
      | (none, _) => (none, m)

/-- `TaskManager::total_count`. -/
def TaskManager.total_count (m : TaskManager) : Nat :=
  m.rt_rq.len + m.cfs_rq.len + m.idle_rq.len

/-- `TaskManager::steal_from_cfs`: when the CFS queue holds at least 2
tasks, take `cfs_rq.pick_next()` (the source comment announces the
highest-vruntime task but temporarily uses `pick_next`). -/
def TaskManager.steal_from_cfs (m : TaskManager) : Option (Task × TaskManager) :=
  if 2 ≤ m.cfs_rq.len then
    match m.cfs_rq.pick_next with
    | (some t, cq) => some (t, { m with cfs_rq := cq })
    | (none, _) => none
  else none

/-- `TaskManager::find_by_pid`: RT, then CFS, then Idle, then the
interruptible queue. -/
def TaskManager.find_by_pid (m : TaskManager) (pid : Nat) : Option Task :=
  match m.rt_rq.find_by_pid pid with
  | some t => some t
  | none =>
    match m.cfs_rq.find_by_pid pid with
    | some t => some t
    | none =>
      match m.idle_rq.find_by_pid pid with
      | some t => some t
      | none => m.interruptible_queue.find? (fun t => t.pid == pid)

/-- `TaskManager::find_by_tgid`. -/
def TaskManager.find_by_tgid (m : TaskManager) (tgid : Nat) : Option Task :=
  match m.rt_rq.find_by_tgid tgid with
  | some t => some t
  | none =>
    match m.cfs_rq.find_by_tgid tgid with
    | some t => some t
    | none =>
      match m.idle_rq.find_by_tgid tgid with
      | some t => some t
      | none => m.interruptible_queue.find? (fun t => t.tgid == tgid)

/-! ## `fetch_task` with try-lock work stealing (`os/src/task/manager.rs`) -/

/-- One entry of `TASK_MANAGERS` together with whether a `try_lock`
from another hart would currently succeed. -/
structure PerCpu where
  lockFree : Bool
  mgr : TaskManager
  deriving Repr, DecidableEq

/-- The work-stealing loop of `fetch_task`: iterate peer indices, skip
the own cpu, take only peers whose `try_lock` succeeds, require
`total_count() >= 2`, and try `steal_from_cfs`. -/
def stealLoopGo (cpu : Nat) : Nat → List PerCpu → Option Task
  | _, [] => none
  | i, m :: rest =>
    if i = cpu then stealLoopGo cpu (i + 1) rest
    else if m.lockFree then
      if 2 ≤ m.mgr.total_count then
        match m.mgr.steal_from_cfs with
        | some (t, _) => some t
        | none => stealLoopGo cpu (i + 1) rest
      else stealLoopGo cpu (i + 1) rest
    else stealLoopGo cpu (i + 1) rest

/-- `fetch_task`: local `fetch()` first, then the stealing loop. -/
def fetchTask (cpu : Nat) (mgrs : List PerCpu) : Option Task :=
  match (mgrs.getD cpu ⟨true, TaskManager.new⟩).mgr.fetch with
  | (some t, _) => some t
  | (none, _) => stealLoopGo cpu 0 mgrs

/-! ## `exit_group_and_run_next` queue sweep (`os/src/task/mod.rs`) -/

/-- The rotation drain of `exit_group_and_run_next` applied to one
`VecDeque`: pop the front `len` times, collecting tasks with the given
tgid into the exit list and pushing the others back. -/
def drainRotate (tgid : Nat) : Nat → List Task → List Task →
    List Task × List Task
  | 0, q, exits => (q, exits)
  | fuel + 1, q, exits =>
    match q with
    | [] => (q, exits)
    | t :: rest =>
      if t.tgid = tgid then drainRotate tgid fuel rest (exits ++ [t])
      else drainRotate tgid fuel (rest ++ [t]) exits

/-- The per-manager part of the `exit_group_and_run_next` sweep.  The
source first drains `manager.ready_queue`, but `TaskManager` has no
field of that name (its ready tasks live in `rt_rq`/`cfs_rq`/`idle_rq`),
so that statement does not compile against the data model and is
modelled as a no-op; only the `interruptible_queue` drain remains. -/
def exitGroupSweepMgr (tgid : Nat) (m : TaskManager) (exits : List Task) :
    TaskManager × List Task :=
  let r := drainRotate tgid m.interruptible_queue.length m.interruptible_queue exits
  ({ m with interruptible_queue := r.1 }, r.2)

/-- The full sweep over every CPU's manager. -/
def exitGroupSweep (tgid : Nat) : List TaskManager → List Task →
    List TaskManager × List Task
  | [], exits => ([], exits)
  | m :: ms, exits =>
    let r := exitGroupSweepMgr tgid m exits
    let rr := exitGroupSweep tgid ms r.2
    (r.1 :: rr.1, rr.2)

/-! ## Bitmap frame allocator (`os/src/mm/bitmap_alloc.rs`) -/

/-- `u64::MAX`. -/
def U64_MAX : Nat := 2 ^ 64 - 1

/-- `(!word).trailing_zeros()`: the index of the lowest zero bit. -/
def firstZeroBit (w : Nat) : Nat :=
  if h : w % 2 = 1 then firstZeroBit (w / 2) + 1 else 0
termination_by w
decreasing_by
  exact Nat.div_lt_self (by omega) (by omega)

/-- `BitmapFrameAllocator` state. -/
structure BitmapFrameAllocator where
  bitmap : List Nat
  start_ppn : Nat
  total_frames : Nat
  alloc_hint : Nat
  allocated_count : Nat
  deriving Repr, DecidableEq

/-- `BitmapFrameAllocator::ppn_to_index`. -/
def BitmapFrameAllocator.ppn_to_index (a : BitmapFrameAllocator) (ppn : Nat) :
    Option Nat :=
  if a.start_ppn ≤ ppn ∧ ppn < a.start_ppn + a.total_frames then
    some (ppn - a.start_ppn)
  else none

/-- `BitmapFrameAllocator::index_to_ppn`. -/
def BitmapFrameAllocator.index_to_ppn (a : BitmapFrameAllocator) (idx : Nat) : Nat :=
  a.start_ppn + idx

/-- `BitmapFrameAllocator::is_allocated`. -/
def BitmapFrameAllocator.is_allocated (a : BitmapFrameAllocator) (ppn : Nat) : Bool :=
  match a.ppn_to_index ppn with
  | some idx => (a.bitmap.getD (idx / 64) 0) &&& (1 <<< (idx % 64)) != 0
  | none => false

/-- The next-fit search loop of `alloc_frame`: words are visited as
`(alloc_hint + offset) % word_count` for `offset` in `0..word_count`;
a word that is not all-ones yields its first zero bit, accepted only
when the frame index is within `total_frames`. -/
def allocFrameScan (bm : List Nat) (total start_word wc : Nat) :
    Nat → Nat → Option (Nat × Nat)
  | _, 0 => none
  | off, rem + 1 =>
    let word_idx := (start_word + off) % wc
    let word := bm.getD word_idx 0
    if word ≠ U64_MAX then
      let bit_idx := firstZeroBit word
      let frame_idx := word_idx * 64 + bit_idx
      if frame_idx < total then some (word_idx, bit_idx)
      else allocFrameScan bm total start_word wc (off + 1) rem
    else allocFrameScan bm total start_word wc (off + 1) rem

/-- `BitmapFrameAllocator::alloc_frame`. -/
def BitmapFrameAllocator.alloc_frame (a : BitmapFrameAllocator) :
    Option Nat × BitmapFrameAllocator :=
  if a.bitmap.length = 0 then (none, a)
  else
    match allocFrameScan a.bitmap a.total_frames a.alloc_hint a.bitmap.length 0
        a.bitmap.length with
    | some (wi, bi) =>
      (some (a.index_to_ppn (wi * 64 + bi)),
        { a with
            bitmap := a.bitmap.set wi ((a.bitmap.getD wi 0) ||| (1 <<< bi)),
            allocated_count := a.allocated_count + 1,
            alloc_hint := wi })
    | none => (none, a)

/-- `(bitmap[idx/64] & (1 << (idx%64))) == 0`: the frame at `idx` is free. -/
def isFreeIdx (bm : List Nat) (idx : Nat) : Bool :=
  (bm.getD (idx / 64) 0) &&& (1 <<< (idx % 64)) = 0

/-- The linear search of `alloc_contiguous`: track the length of the
current free run and its start. -/
def contigScan (bm : List Nat) (count : Nat) :
    Nat → Nat → Nat → Nat → Option Nat
  | _, _, _, 0 => none
  | idx, consec, start, rem + 1 =>
    if isFreeIdx bm idx then
      let start2 := if consec = 0 then idx else start
      let consec2 := consec + 1
      if count ≤ consec2 then some start2
      else contigScan bm count (idx + 1) consec2 start2 rem
    else contigScan bm count (idx + 1) 0 start rem

/-- Mark `count` frames starting at index `i` as allocated. -/
def markRange : List Nat → Nat → Nat → List Nat
  | bm, _, 0 => bm
  | bm, i, c + 1 =>
    markRange (bm.set (i / 64) ((bm.getD (i / 64) 0) ||| (1 <<< (i % 64)))) (i + 1) c

/-- `BitmapFrameAllocator::alloc_contiguous`. -/
def BitmapFrameAllocator.alloc_contiguous (a : BitmapFrameAllocator)
    (count : Nat) : Option Nat × BitmapFrameAllocator :=
  if count = 0 then (none, a)
  else if count = 1 then a.alloc_frame
  else
    match contigScan a.bitmap count 0 0 0 a.total_frames with
    | some start =>
      (some (a.index_to_ppn start),
        { a with bitmap := markRange a.bitmap start count,
                 allocated_count := a.allocated_count + count })
    | none => (none, a)

/-! ## Invariant predicates used by the claims -/

/-- Sum of the weights of the queued tasks. -/
def cfsSumWeights (l : List Task) : Nat :=
  (l.map Task.weight).sum

/-- The claimed CFS accounting invariant (spec: "Σ(entity.weight) =
queue.total_weight and |tasks| = queue.nr_running"). -/
def CfsInvariant (q : CfsRunQueue) : Prop :=
  q.nr_running = q.tasks.length ∧ q.total_weight = cfsSumWeights q.tasks

/-- The RT bitmap/queue correspondence: 100 FIFOs, bit `p` set exactly
when FIFO `p` is non-empty, the bitmap confined to its 100 bits, and
`nr_running` bounded by the real task count (requeue_rr does not
increment it). -/
def RtInvariant (q : RtRunQueue) : Prop :=
  q.queues.length = 100 ∧
  q.bitmap < 2 ^ 100 ∧
  (∀ p < 100, q.bitmap.testBit p = true ↔ q.queues.getD p [] ≠ []) ∧
  q.nr_running ≤ (q.queues.map List.length).sum

/-- Well-formedness of the bitmap allocator: words are 64-bit values and
the bitmap covers all managed frames. -/
def BitmapWF (a : BitmapFrameAllocator) : Prop :=
  (∀ w ∈ a.bitmap, w < 2 ^ 64) ∧ a.total_frames ≤ 64 * a.bitmap.length

instance (q : RtRunQueue) : Decidable (RtInvariant q) := by
  unfold RtInvariant
  infer_instance

instance (q : CfsRunQueue) : Decidable (CfsInvariant q) := by
  unfold CfsInvariant
  infer_instance

instance (a : BitmapFrameAllocator) : Decidable (BitmapWF a) := by
  unfold BitmapWF
  infer_instance

end NPUCore

namespace NPUCore

/-! # Theorems -/

/-- **C7 counterexample.** The validator accepts Blocked → Ready, a
transition absent from the six listed by the claim, so "accepts if and
only if in this set" is false. -/
theorem c7_counterexample :
    is_valid_transition .blocked .ready = true ∧
    specClaimedTransition .blocked .ready = false := by
  decide

/-- **C7 (amended).** `is_valid_transition` accepts exactly twelve
transitions: the six of the claim (Created→Ready, Ready→Running,
Running→Ready, Running→Blocked, Running→Zombie, Zombie→Exited) plus
Ready→Zombie, Running→Stopped, Blocked→Ready, Blocked→Zombie,
Stopped→Ready and Stopped→Zombie. -/
theorem c7_amended (from_ to_ : ProcessState) :
    is_valid_transition from_ to_ = true ↔
      (from_, to_) ∈ ([
        (ProcessState.created, ProcessState.ready),
        (ProcessState.ready, ProcessState.running),
        (ProcessState.ready, ProcessState.zombie),
        (ProcessState.running, ProcessState.ready),
        (ProcessState.running, ProcessState.blocked),
        (ProcessState.running, ProcessState.zombie),
        (ProcessState.running, ProcessState.stopped),
        (ProcessState.blocked, ProcessState.ready),
        (ProcessState.blocked, ProcessState.zombie),
        (ProcessState.zombie, ProcessState.exited),
        (ProcessState.stopped, ProcessState.ready),
        (ProcessState.stopped, ProcessState.zombie)] : List (ProcessState × ProcessState)) := by
  revert from_ to_
  decide

/-- **C6.** Unknown syscall numbers (no table entry) return `ENOSYS`
and post SIGSYS exactly when a current task exists; a number with an
entry invokes its handler on the six raw arguments and returns the
handler's result unchanged, with no SIGSYS. -/
theorem c6_syscall_dispatch (table : Nat → Option SyscallHandler) (id : Nat)
    (args : SyscallArgs) (hasTask : Bool) :
    (table id = none → syscallEntry table id args hasTask = (ENOSYS, hasTask)) ∧
    (∀ h, table id = some h →
      syscallEntry table id args hasTask = (h args, false)) := by
  constructor
  · intro hnone
    simp [syscallEntry, dispatch_syscall, hnone, handle_unsupported_syscall]
  · intro h hsome
    simp [syscallEntry, dispatch_syscall, hsome]

/-- Witness for C6: a two-entry scenario, one missing number and one
present number. -/
theorem c6_syscall_dispatch_witness :
    syscallEntry (fun n => if n = 63 then some (fun _ => (42 : Int)) else none)
        999 (fun _ => 0) true = (ENOSYS, true) ∧
    syscallEntry (fun n => if n = 63 then some (fun _ => (42 : Int)) else none)
        63 (fun _ => 0) true = (42, false) :=
  ⟨(c6_syscall_dispatch _ 999 _ true).1 rfl,
   (c6_syscall_dispatch _ 63 _ true).2 _ rfl⟩

/-- `futexRemove` returns exactly the looked-up queue. -/
theorem futexRemove_fst (addr : Nat) (fx : List (Nat × List Nat)) :
    (futexRemove addr fx).1 = futexLookup addr fx := by
  induction fx with
  | nil => rfl
  | cons hd tl ih =>
    obtain ⟨a, q⟩ := hd
    by_cases h : a = addr <;> simp [futexRemove, futexLookup, h, ih]

/-- **C5.** `do_futex_wait` returns `EAGAIN` exactly when the futex
word differs from the expected value; in that case it neither blocks
nor touches the futex map or the timeout heap.  Otherwise the current
task is appended to that address's wait queue, a deadline is registered
exactly when a timeout was given, the task blocks, and the return value
after waking is `EINTR` exactly when an unblocked signal is pending and
`SUCCESS` otherwise. -/
theorem c5_futex_wait (wordVal val addr : Nat) (timeout : Option Nat)
    (now tid : Nat) (fx : List (Nat × List Nat)) (touts : List (Nat × Nat))
    (sp sm : Nat) :
    ((do_futex_wait wordVal val addr timeout now tid fx touts sp sm).ret =
        EAGAIN ↔ wordVal ≠ val) ∧
    (wordVal ≠ val →
      do_futex_wait wordVal val addr timeout now tid fx touts sp sm =
        ⟨EAGAIN, fx, touts, false⟩) ∧
    (wordVal = val →
      (do_futex_wait wordVal val addr timeout now tid fx touts sp sm).blocked
          = true ∧
      futexLookup addr
          (do_futex_wait wordVal val addr timeout now tid fx touts sp sm).futex =
        some ((futexLookup addr fx).getD [] ++ [tid]) ∧
      (do_futex_wait wordVal val addr timeout now tid fx touts sp sm).timeouts =
        (match timeout with
          | some t => touts ++ [(tid, t + now)]
          | none => touts) ∧
      ((do_futex_wait wordVal val addr timeout now tid fx touts sp sm).ret =
          EINTR ↔ sigDifference sp sm ≠ 0) ∧
      ((do_futex_wait wordVal val addr timeout now tid fx touts sp sm).ret =
          SUCCESS ↔ sigDifference sp sm = 0)) := by
  by_cases hv : wordVal = val
  · subst hv
    refine ⟨?_, by simp, fun _ => ⟨?_, ?_, ?_, ?_, ?_⟩⟩
    · by_cases hs : sigDifference sp sm = 0 <;>
        simp [do_futex_wait, hs, EAGAIN, EINTR, SUCCESS]
    · simp [do_futex_wait]
    · simp [do_futex_wait, futexLookup, futexRemove_fst]
    · cases timeout <;> simp [do_futex_wait]
    · by_cases hs : sigDifference sp sm = 0 <;>
        simp [do_futex_wait, hs, EINTR, SUCCESS]
    · by_cases hs : sigDifference sp sm = 0 <;>
        simp [do_futex_wait, hs, EINTR, SUCCESS]
  · refine ⟨by simp [do_futex_wait, hv], fun _ => by simp [do_futex_wait, hv],
      fun h => absurd h hv⟩

/-- Witness for C5: both branches at concrete inputs, through the
theorem itself. -/
theorem c5_futex_wait_witness :
    (do_futex_wait 3 5 4096 none 0 1 [] [] 0 0 = ⟨EAGAIN, [], [], false⟩) ∧
    (do_futex_wait 5 5 4096 (some 10) 2 1 [] [] 0 0).blocked = true :=
  ⟨(c5_futex_wait 3 5 4096 none 0 1 [] [] 0 0).2.1 (by decide),
   ((c5_futex_wait 5 5 4096 (some 10) 2 1 [] [] 0 0).2.2 rfl).1⟩

/-- **C2.** In the dispatcher loop the chosen task proceeds only when
its `on_cpu` flag is observed `false`; then `running_on_cpu` is
compare-and-swapped from `TASK_NOT_RUNNING` to the hart id.  A failed
CAS is a fatal double-run; a successful CAS hands the task to execution
with `running_on_cpu` already set to the hart id (and status `Running`,
`last_cpu` and the trap frame's `kernel_tp` stamped, `on_cpu` raised). -/
theorem c2_dispatch_cas (cpu : Nat) (t : Task) :
    ((runTaskStep cpu t).isSome ↔ t.on_cpu = false) ∧
    (t.on_cpu = false → t.running_on_cpu ≠ TASK_NOT_RUNNING →
      runTaskStep cpu t = some (.error (.doubleRun t.pid t.running_on_cpu))) ∧
    (t.on_cpu = false → t.running_on_cpu = TASK_NOT_RUNNING →
      raInvalid t.ra = false →
      runTaskStep cpu t = some (.ok
        { t with running_on_cpu := cpu, kernel_tp := cpu,
                 task_status := .running, last_cpu := cpu, on_cpu := true })) := by
  refine ⟨?_, fun h1 h2 => by simp [runTaskStep, h1, h2],
    fun h1 h2 h3 => by simp [runTaskStep, h1, h2, h3]⟩
  cases h : t.on_cpu
  · simp only [runTaskStep, h, Bool.false_eq_true, if_false]
    split
    · simp
    · split <;> simp
  · simp [runTaskStep, h]

/-- Witness for C2: a concrete ready task with a valid context is
handed over with `running_on_cpu` set to the hart. -/
theorem c2_dispatch_cas_witness :
    runTaskStep 0
      ⟨1, 1, 0, 1024, 0, 0, .normal, 1, 0x80200000, TASK_NOT_RUNNING, false,
        .ready, 0, 0⟩ =
    some (.ok ⟨1, 1, 0, 1024, 0, 0, .normal, 1, 0x80200000, 0, true,
        .running, 0, 0⟩) :=
  (c2_dispatch_cas 0 _).2.2 rfl rfl (by decide)

/-- **C8.** With the `zero_init` feature off, `StackFrameAllocator::alloc`
returns `None` exactly when the free pool (recycled frames plus the
unallocated region) is exhausted, and every returned page — recycled or
fresh — is entirely zero-initialised. -/
theorem c8_stack_alloc_zeroed (a : StackFrameAllocator) (mem : Mem)
    (hle : a.current ≤ a.end_) :
    ((StackFrameAllocator.alloc false a mem).1 = none ↔
      a.unallocated_frames = 0) ∧
    (∀ p, (StackFrameAllocator.alloc false a mem).1 = some p →
      ∀ i, (StackFrameAllocator.alloc false a mem).2.2 p i = 0) := by
  match hrec : a.recycled with
  | ppn :: rest =>
    refine ⟨?_, ?_⟩
    · simp [StackFrameAllocator.alloc, hrec, StackFrameAllocator.unallocated_frames]
    · intro p hp i
      simp only [StackFrameAllocator.alloc, hrec] at hp ⊢
      obtain rfl : ppn = p := by simpa using hp
      simp [frameTrackerNew]
  | [] =>
    by_cases hend : a.current = a.end_
    · refine ⟨?_, ?_⟩
      · simp [StackFrameAllocator.alloc, hrec, hend,
          StackFrameAllocator.unallocated_frames]
      · intro p hp i
        simp [StackFrameAllocator.alloc, hrec, hend] at hp
    · refine ⟨?_, ?_⟩
      · simp only [StackFrameAllocator.alloc, hrec, if_neg hend,
          StackFrameAllocator.unallocated_frames]
        simp
        omega
      · intro p hp i
        simp only [StackFrameAllocator.alloc, hrec, if_neg hend] at hp ⊢
        obtain rfl : a.current = p := by simpa using hp
        simp [frameTrackerNew]

/-- Witness for C8: a one-frame pool hands out frame 0 zeroed (the
backing memory held the value 7 everywhere beforehand). -/
theorem c8_stack_alloc_zeroed_witness :
    (StackFrameAllocator.alloc false ⟨0, 1, []⟩ (fun _ _ => 7)).2.2 0 5 = 0 :=
  (c8_stack_alloc_zeroed ⟨0, 1, []⟩ (fun _ _ => 7) (by decide)).2 0 rfl 5

/-- **C4 counterexample.** Enqueue a single nice −20 task (weight
88761) into a fresh CFS queue and pop it with `pick_next`: the queue is
now empty but `total_weight` is left at 88761 − 1024 = 87737, because
`pick_next` subtracts the constant `NICE_0_WEIGHT` instead of the
popped task's weight.  So `total_weight = Σ weights` fails after this
two-operation sequence (the task-count half still holds here). -/
theorem c4_counterexample :
    ((CfsRunQueue.new.enqueue
        ⟨1, 1, 0, 88761, 0, 0, .normal, 1, 0x80200000, 0, false, .ready, 0, 0⟩
        false).pick_next).2.tasks = [] ∧
    ((CfsRunQueue.new.enqueue
        ⟨1, 1, 0, 88761, 0, 0, .normal, 1, 0x80200000, 0, false, .ready, 0, 0⟩
        false).pick_next).2.total_weight = 87737 := by
  decide

/-- **C3 (code bug).** `exit_group_and_run_next` drains only the field
`ready_queue` — which does not exist on `TaskManager` — and the
interruptible queue; the RT/CFS/Idle runqueues are never enumerated.
Concretely: with a ready CFS task of tgid 7 queued on a CPU, the sweep
terminates nothing (the exit list stays empty) and the task is still
found in the runqueues afterwards, contradicting "no task with that
tgid appears in any runqueue". -/
theorem c3_exit_group_misses_runqueues :
    ((exitGroupSweep 7
        [{ TaskManager.new with
             cfs_rq := CfsRunQueue.new.enqueue
               ⟨2, 7, 0, 1024, 0, 0, .normal, 1, 0x80200000, 0, false,
                 .ready, 0, 0⟩
               false }] []).2 = []) ∧
    (((exitGroupSweep 7
        [{ TaskManager.new with
             cfs_rq := CfsRunQueue.new.enqueue
               ⟨2, 7, 0, 1024, 0, 0, .normal, 1, 0x80200000, 0, false,
                 .ready, 0, 0⟩
               false }] []).1.headD TaskManager.new).find_by_tgid 7).isSome
      = true := by
  decide

/-! ### Helper lemmas for the CFS map model -/

/-- `cfsKeyEq` is reflexive. -/
theorem cfsKeyEq_refl (t : Task) : cfsKeyEq t t = true := by
  simp [cfsKeyEq]

/-- Inserting a fresh key is a permutation of consing. -/
theorem cfsInsert_perm (e : Task) (l : List Task)
    (hf : ∀ x ∈ l, cfsKeyEq e x = false) : (cfsInsert e l).Perm (e :: l) := by
  induction l with
  | nil => simp [cfsInsert]
  | cons x xs ih =>
    unfold cfsInsert
    by_cases hlt : cfsKeyLt e x = true
    · simp [hlt]
    · have hne : cfsKeyEq e x = false := hf x (by simp)
      rw [if_neg (by simp [hlt]), if_neg (by simp [hne])]
      exact ((ih (fun y hy => hf y (by simp [hy]))).cons x).trans
        (List.Perm.swap e x xs)

/-- A successful `cfsRemoveKey` splits the list up to permutation, and
the removed entry has the searched key. -/
theorem cfsRemoveKey_some (t x : Task) (l rest : List Task)
    (h : cfsRemoveKey t l = (some x, rest)) :
    l.Perm (x :: rest) ∧ cfsKeyEq t x = true := by
  induction l generalizing rest with
  | nil => simp [cfsRemoveKey] at h
  | cons y ys ih =>
    unfold cfsRemoveKey at h
    by_cases hk : cfsKeyEq t y = true
    · rw [if_pos hk, Prod.mk.injEq] at h
      obtain ⟨h1, rfl⟩ := h
      obtain rfl := Option.some.inj h1
      exact ⟨List.Perm.refl _, hk⟩
    · rw [if_neg hk, Prod.mk.injEq] at h
      obtain ⟨h1, h2⟩ := h
      have heq : cfsRemoveKey t ys = (some x, (cfsRemoveKey t ys).2) := by
        rw [← h1]
      obtain ⟨hperm, hkey⟩ := ih (cfsRemoveKey t ys).2 heq
      refine ⟨?_, hkey⟩
      rw [← h2]
      exact (hperm.cons y).trans (List.Perm.swap x y _)

/-- A failed `cfsRemoveKey` leaves the list unchanged. -/
theorem cfsRemoveKey_none (t : Task) (l rest : List Task)
    (h : cfsRemoveKey t l = (none, rest)) : rest = l := by
  induction l generalizing rest with
  | nil => simpa [cfsRemoveKey] using h.symm
  | cons y ys ih =>
    unfold cfsRemoveKey at h
    by_cases hk : cfsKeyEq t y = true
    · rw [if_pos hk, Prod.mk.injEq] at h
      simp at h
    · rw [if_neg hk, Prod.mk.injEq] at h
      obtain ⟨h1, h2⟩ := h
      have heq : cfsRemoveKey t ys = (none, (cfsRemoveKey t ys).2) := by
        rw [← h1]
      rw [← h2, ih (cfsRemoveKey t ys).2 heq]

/-- If some entry carries the searched key, removal succeeds. -/
theorem cfsRemoveKey_isSome (t : Task) (l : List Task)
    (h : ∃ x ∈ l, cfsKeyEq t x = true) : (cfsRemoveKey t l).1.isSome = true := by
  induction l with
  | nil => simp at h
  | cons y ys ih =>
    unfold cfsRemoveKey
    by_cases hk : cfsKeyEq t y = true
    · simp [hk]
    · rw [if_neg hk]
      obtain ⟨x, hx, hkey⟩ := h
      rcases List.mem_cons.mp hx with rfl | hx2
      · exact absurd hkey hk
      · exact ih ⟨x, hx2, hkey⟩

/-- Weights are invariant under permutation. -/
theorem cfsSumWeights_perm {l l' : List Task} (h : l.Perm l') :
    cfsSumWeights l = cfsSumWeights l' := by
  unfold cfsSumWeights
  exact (h.map Task.weight).sum_eq

/-- Accounting after removing one entry by key. -/
theorem cfsInvariant_remove_step (q : CfsRunQueue) (k x : Task)
    (rest : List Task) (hInv : CfsInvariant q)
    (hrem : cfsRemoveKey k q.tasks = (some x, rest)) :
    q.nr_running - 1 = rest.length ∧
    q.total_weight - x.weight = cfsSumWeights rest := by
  obtain ⟨hn, hw⟩ := hInv
  obtain ⟨hperm, _⟩ := cfsRemoveKey_some k x q.tasks rest hrem
  have hlen : q.tasks.length = rest.length + 1 := by
    simpa using hperm.length_eq
  have hsum : cfsSumWeights q.tasks = x.weight + cfsSumWeights rest := by
    rw [cfsSumWeights_perm hperm]; simp [cfsSumWeights]
  constructor
  · omega
  · omega

/-- **C4 (amended).** The accounting invariant
`nr_running = |tasks| ∧ total_weight = Σ weights` is preserved by
`enqueue` (for an entity whose placed key is not already present), by
`dequeue` (called with the entity the entry was enqueued with, as the
kernel does), by `steal_for_cpu` and by `remove_by_tgid`.  `pick_next`
always preserves the task-count half, but subtracts the constant
`NICE_0_WEIGHT` from `total_weight`, so it preserves the weight half
only when the popped task's weight is exactly `NICE_0_WEIGHT`. -/
theorem c4_amended :
    (∀ (q : CfsRunQueue) (t : Task) (is_new : Bool), CfsInvariant q →
      (∀ x ∈ q.tasks, cfsKeyEq (q.place_entity t is_new) x = false) →
      CfsInvariant (q.enqueue t is_new)) ∧
    (∀ (q : CfsRunQueue) (t : Task), CfsInvariant q →
      (∀ x ∈ q.tasks, cfsKeyEq t x = true → x.weight = t.weight) →
      CfsInvariant (q.dequeue t)) ∧
    (∀ q : CfsRunQueue, CfsInvariant q →
      (q.pick_next).2.nr_running = (q.pick_next).2.tasks.length) ∧
    (∀ (q : CfsRunQueue) (x : Task) (rest : List Task), CfsInvariant q →
      q.tasks = x :: rest → x.weight = NICE_0_WEIGHT →
      CfsInvariant (q.pick_next).2) ∧
    (∀ (q : CfsRunQueue) (cpu : Nat), CfsInvariant q →
      CfsInvariant (q.steal_for_cpu cpu).2) ∧
    (∀ (q : CfsRunQueue) (tgid : Nat), CfsInvariant q →
      CfsInvariant (q.remove_by_tgid tgid).1) := by
  have hstep := cfsInvariant_remove_step
  have hgo : ∀ (ks : List Task) (q : CfsRunQueue) (acc : List Task),
      CfsInvariant q → CfsInvariant (cfsRemoveByTgidGo ks q acc).1 := by
    intro ks
    induction ks with
    | nil => intro q acc hInv; exact hInv
    | cons k ks ih =>
      intro q acc hInv
      unfold cfsRemoveByTgidGo
      rcases hrem : cfsRemoveKey k q.tasks with ⟨o, rest⟩
      cases o with
      | none => exact ih q acc hInv
      | some x =>
        obtain ⟨h1, h2⟩ := hstep q k x rest hInv hrem
        exact ih _ _ ⟨h1, h2⟩
  refine ⟨?_, ?_, ?_, ?_, ?_, ?_⟩
  · -- enqueue
    intro q t is_new hInv hf
    obtain ⟨hn, hw⟩ := hInv
    have hperm := cfsInsert_perm (q.place_entity t is_new) q.tasks hf
    have hlen := hperm.length_eq
    have hsum := cfsSumWeights_perm hperm
    simp only [List.length_cons] at hlen
    constructor
    · show q.nr_running + 1 = (cfsInsert (q.place_entity t is_new) q.tasks).length
      omega
    · show q.total_weight + (q.place_entity t is_new).weight =
        cfsSumWeights (cfsInsert (q.place_entity t is_new) q.tasks)
      rw [hsum]
      simp only [cfsSumWeights, List.map_cons, List.sum_cons] at hw ⊢
      omega
  · -- dequeue
    intro q t hInv hwt
    rcases hrem : cfsRemoveKey t q.tasks with ⟨o, rest⟩
    cases o with
    | none =>
      unfold CfsRunQueue.dequeue
      rw [hrem]
      exact hInv
    | some x =>
      obtain ⟨h1, h2⟩ := hstep q t x rest hInv hrem
      obtain ⟨hperm, hkey⟩ := cfsRemoveKey_some t x q.tasks rest hrem
      have hxw : x.weight = t.weight :=
        hwt x (hperm.mem_iff.mpr (by simp)) hkey
      unfold CfsRunQueue.dequeue
      rw [hrem]
      exact ⟨h1, by rw [← hxw]; exact h2⟩
  · -- pick_next, count half
    intro q hInv
    obtain ⟨hn, _⟩ := hInv
    unfold CfsRunQueue.pick_next
    cases h : q.tasks with
    | nil => simpa [h] using hn
    | cons x rest =>
      simp only [h, List.length_cons] at hn ⊢
      show q.nr_running - 1 = rest.length
      omega
  · -- pick_next, both halves for a NICE_0_WEIGHT task
    intro q x rest hInv htasks hweight
    obtain ⟨hn, hw⟩ := hInv
    rw [htasks] at hn hw
    unfold CfsRunQueue.pick_next
    rw [htasks]
    simp only [List.length_cons] at hn
    constructor
    · show q.nr_running - 1 = rest.length
      omega
    · show q.total_weight - NICE_0_WEIGHT = cfsSumWeights rest
      simp only [cfsSumWeights, List.map_cons, List.sum_cons] at hw
      unfold cfsSumWeights
      omega
  · -- steal_for_cpu
    intro q cpu hInv
    unfold CfsRunQueue.steal_for_cpu
    rcases hfind : q.tasks.reverse.find? (stealPred cpu) with _ | t
    · exact hInv
    · rcases hrem : cfsRemoveKey t q.tasks with ⟨o, rest⟩
      cases o with
      | none =>
        simp only []
        rw [hrem]
        exact hInv
      | some x =>
        obtain ⟨h1, h2⟩ := hstep q t x rest hInv hrem
        simp only []
        rw [hrem]
        exact ⟨h1, h2⟩
  · -- remove_by_tgid
    intro q tgid hInv
    exact hgo _ q [] hInv

/-- Witness for C4 (amended): a fresh queue receives one task and pops
it with `pick_next`; both halves of the invariant hold because that
task's weight is `NICE_0_WEIGHT`. -/
theorem c4_amended_witness :
    CfsInvariant ((CfsRunQueue.new.enqueue
      ⟨1, 1, 0, 1024, 0, 0, .normal, 1, 0x80200000, 0, false, .ready, 0, 0⟩
      false).pick_next).2 :=
  c4_amended.2.2.2.1
    (CfsRunQueue.new.enqueue
      ⟨1, 1, 0, 1024, 0, 0, .normal, 1, 0x80200000, 0, false, .ready, 0, 0⟩
      false)
    ⟨1, 1, 0, 1024, 0, 0, .normal, 1, 0x80200000, 0, false, .ready, 0, 0⟩
    [] ⟨rfl, rfl⟩ rfl rfl

/-! ### Work stealing (C1) -/

/-- A successful `TaskManager::steal_from_cfs` requires at least two
CFS tasks and hands out the queue head (the task `pick_next` pops). -/
theorem steal_from_cfs_spec (m : TaskManager) (t : Task) (m' : TaskManager)
    (h : m.steal_from_cfs = some (t, m')) :
    2 ≤ m.cfs_rq.len ∧ m.cfs_rq.tasks.head? = some t := by
  unfold TaskManager.steal_from_cfs at h
  by_cases hl : 2 ≤ m.cfs_rq.len
  · refine ⟨hl, ?_⟩
    rw [if_pos hl] at h
    unfold CfsRunQueue.pick_next at h
    cases ht : m.cfs_rq.tasks with
    | nil => rw [ht] at h; simp at h
    | cons x rest =>
      rw [ht] at h
      simp only [Option.some.injEq, Prod.mk.injEq] at h
      simp [h.1]
  · rw [if_neg hl] at h
    simp at h

/-- Any task produced by the stealing loop of `fetch_task` comes from a
peer index other than the stealing cpu whose try-lock succeeded, whose
total task count is at least 2 and whose CFS queue holds at least 2
tasks, and it is that queue's head. -/
theorem stealLoopGo_spec (cpu : Nat) (ms : List PerCpu) :
    ∀ (i : Nat) (t : Task), stealLoopGo cpu i ms = some t →
    ∃ j m, ms[j]? = some m ∧ i + j ≠ cpu ∧ m.lockFree = true ∧
      2 ≤ m.mgr.total_count ∧ 2 ≤ m.mgr.cfs_rq.len ∧
      m.mgr.cfs_rq.tasks.head? = some t := by
  induction ms with
  | nil => intro i t h; simp [stealLoopGo] at h
  | cons m rest ih =>
    intro i t h
    unfold stealLoopGo at h
    by_cases hic : i = cpu
    · rw [if_pos hic] at h
      obtain ⟨j, m', hj, hne, hprops⟩ := ih (i + 1) t h
      exact ⟨j + 1, m', by simpa using hj, by omega, hprops⟩
    · rw [if_neg hic] at h
      by_cases hlock : m.lockFree = true
      · rw [if_pos hlock] at h
        by_cases htot : 2 ≤ m.mgr.total_count
        · rw [if_pos htot] at h
          rcases hsteal : m.mgr.steal_from_cfs with _ | p
          · rw [hsteal] at h
            obtain ⟨j, m', hj, hne, hprops⟩ := ih (i + 1) t h
            exact ⟨j + 1, m', by simpa using hj, by omega, hprops⟩
          · obtain ⟨t', m2⟩ := p
            rw [hsteal] at h
            simp only [Option.some.injEq] at h
            subst h
            obtain ⟨hlen, hhead⟩ := steal_from_cfs_spec m.mgr t' m2 hsteal
            exact ⟨0, m, by simp, by omega, hlock, htot, hlen, hhead⟩
        · rw [if_neg htot] at h
          obtain ⟨j, m', hj, hne, hprops⟩ := ih (i + 1) t h
          exact ⟨j + 1, m', by simpa using hj, by omega, hprops⟩
      · rw [if_neg hlock] at h
        obtain ⟨j, m', hj, hne, hprops⟩ := ih (i + 1) t h
        exact ⟨j + 1, m', by simpa using hj, by omega, hprops⟩

/-- **C1 counterexample.** Hart 0's queues are empty; hart 1 holds two
CFS tasks.  The low-vruntime task (vruntime 10) has an invalid saved
context (`ra = 0`), an affinity mask excluding cpu 0, and
`running_on_cpu = 1 ≠ NOT_RUNNING`; the high-vruntime task (vruntime
20) satisfies every eligibility condition of the claim.  `fetch_task`
on hart 0 nevertheless steals the low-vruntime task, violating
conditions (a), (b), (c) and the highest-vruntime preference at once. -/
theorem c1_counterexample :
    fetchTask 0
      [⟨true, TaskManager.new⟩,
       ⟨true, ⟨RtRunQueue.new,
          (CfsRunQueue.new.enqueue
              ⟨1, 1, 10, 1024, 1, 0, .normal, 2, 0, 1, false, .ready, 1, 1⟩
              false).enqueue
            ⟨2, 2, 20, 1024, 1, 0, .normal, 3, 0x80200000, TASK_NOT_RUNNING,
              false, .ready, 1, 1⟩ false,
          IdleRunQueue.new, []⟩⟩] =
      some ⟨1, 1, 10, 1024, 1, 0, .normal, 2, 0, 1, false, .ready, 1, 1⟩ ∧
    Task.ra ⟨1, 1, 10, 1024, 1, 0, .normal, 2, 0, 1, false, .ready, 1, 1⟩ = 0 ∧
    Task.can_run_on ⟨1, 1, 10, 1024, 1, 0, .normal, 2, 0, 1, false, .ready, 1, 1⟩
      0 = false ∧
    Task.running_on_cpu ⟨1, 1, 10, 1024, 1, 0, .normal, 2, 0, 1, false, .ready, 1, 1⟩
      ≠ TASK_NOT_RUNNING ∧
    stealPred 0 ⟨2, 2, 20, 1024, 1, 0, .normal, 3, 0x80200000, TASK_NOT_RUNNING,
      false, .ready, 1, 1⟩ = true ∧
    (10 : Nat) < 20 := by
  decide

/-- **C1 (amended).** When the local fetch comes up empty, work
stealing iterates peer CPUs under try-lock only and takes a task from a
peer whose try-lock succeeded, whose total task count is at least 2 and
whose CFS queue holds at least 2 tasks; the stolen task is that CFS
queue's head, i.e. (for a sorted queue) the task with the LOWEST
`(vruntime, tid)` key — no saved-context, cpu-affinity or
`running_on_cpu` condition is checked. -/
theorem c1_amended (cpu : Nat) (mgrs : List PerCpu) (t : Task)
    (hlocal : ((mgrs.getD cpu ⟨true, TaskManager.new⟩).mgr.fetch).1 = none)
    (hfetch : fetchTask cpu mgrs = some t) :
    ∃ j m, mgrs[j]? = some m ∧ j ≠ cpu ∧ m.lockFree = true ∧
      2 ≤ m.mgr.total_count ∧ 2 ≤ m.mgr.cfs_rq.len ∧
      m.mgr.cfs_rq.tasks.head? = some t ∧
      (List.Pairwise (fun a b => cfsKeyLt a b = true) m.mgr.cfs_rq.tasks →
        ∀ u ∈ m.mgr.cfs_rq.tasks, u = t ∨ cfsKeyLt t u = true) := by
  unfold fetchTask at hfetch
  rcases hfe : (mgrs.getD cpu ⟨true, TaskManager.new⟩).mgr.fetch with ⟨o, m2⟩
  rw [hfe] at hfetch hlocal
  obtain rfl : o = none := hlocal
  obtain ⟨j, m, hj, hne, hlock, htot, hlen, hhead⟩ :=
    stealLoopGo_spec cpu mgrs 0 t hfetch
  refine ⟨j, m, hj, by omega, hlock, htot, hlen, hhead, ?_⟩
  intro hsorted u hu
  cases htasks : m.mgr.cfs_rq.tasks with
  | nil => rw [htasks] at hhead; simp at hhead
  | cons x rest =>
    rw [htasks] at hhead
    obtain rfl : x = t := by simpa using hhead
    rw [htasks] at hsorted hu
    rcases List.mem_cons.mp hu with rfl | hu2
    · exact Or.inl rfl
    · exact Or.inr ((List.pairwise_cons.mp hsorted).1 u hu2)

/-- Witness for C1 (amended), at the two-hart scenario of the
counterexample. -/
theorem c1_amended_witness :
    ∃ j m,
      ([⟨true, TaskManager.new⟩,
        ⟨true, ⟨RtRunQueue.new,
           (CfsRunQueue.new.enqueue
               ⟨1, 1, 10, 1024, 1, 0, .normal, 2, 0, 1, false, .ready, 1, 1⟩
               false).enqueue
             ⟨2, 2, 20, 1024, 1, 0, .normal, 3, 0x80200000, TASK_NOT_RUNNING,
               false, .ready, 1, 1⟩ false,
           IdleRunQueue.new, []⟩⟩] : List PerCpu)[j]? = some m ∧
      j ≠ 0 ∧ m.lockFree = true ∧
      2 ≤ m.mgr.total_count ∧ 2 ≤ m.mgr.cfs_rq.len ∧
      m.mgr.cfs_rq.tasks.head? =
        some ⟨1, 1, 10, 1024, 1, 0, .normal, 2, 0, 1, false, .ready, 1, 1⟩ ∧
      (List.Pairwise (fun a b => cfsKeyLt a b = true) m.mgr.cfs_rq.tasks →
        ∀ u ∈ m.mgr.cfs_rq.tasks,
          u = ⟨1, 1, 10, 1024, 1, 0, .normal, 2, 0, 1, false, .ready, 1, 1⟩ ∨
          cfsKeyLt ⟨1, 1, 10, 1024, 1, 0, .normal, 2, 0, 1, false, .ready, 1, 1⟩
            u = true) :=
  c1_amended 0 _ _ (by decide) (by decide)

/-! ### Helper lemmas for the RT bitmap (C10) -/

/-- `getD` after `set` at the same position. -/
theorem list_getD_set_self {α : Type} (l : List α) (p : Nat) (x d : α)
    (h : p < l.length) : (l.set p x).getD p d = x := by
  induction l generalizing p with
  | nil => simp at h
  | cons hd tl ih =>
    cases p with
    | zero => rfl
    | succ p' => exact ih p' (by simpa using h)

/-- `getD` after `set` at a different position. -/
theorem list_getD_set_ne {α : Type} (l : List α) (p q : Nat) (x d : α)
    (h : p ≠ q) : (l.set p x).getD q d = l.getD q d := by
  induction l generalizing p q with
  | nil => simp
  | cons hd tl ih =>
    cases p with
    | zero =>
      cases q with
      | zero => exact absurd rfl h
      | succ q' => rfl
    | succ p' =>
      cases q with
      | zero => rfl
      | succ q' => exact ih p' q' (by omega)

/-- Total length accounting across a `set`. -/
theorem sumLen_set (l : List (List Task)) (p : Nat) (x : List Task)
    (h : p < l.length) :
    ((l.set p x).map List.length).sum + (l.getD p []).length =
      (l.map List.length).sum + x.length := by
  induction l generalizing p with
  | nil => simp at h
  | cons hd tl ih =>
    cases p with
    | zero => simp [List.getD]; omega
    | succ p' =>
      have := ih p' (by simpa using h)
      simp only [List.set, List.map_cons, List.sum_cons, List.getD_cons_succ]
      omega

/-- Bit view of `bitmap |= 1 << p`. -/
theorem testBit_orBit (b p i : Nat) :
    (b ||| (1 <<< p)).testBit i = (b.testBit i || decide (p = i)) := by
  rw [Nat.one_shiftLeft, Nat.testBit_lor, Nat.testBit_two_pow]

/-- Bit view of `bitmap &= !(1u128 << p)` for indices inside the 128-bit
word. -/
theorem testBit_clearBit128 (b p i : Nat) (hi : i < 128) :
    (clearBit128 b p).testBit i = (b.testBit i && !decide (p = i)) := by
  unfold clearBit128
  rw [Nat.testBit_land, Nat.testBit_xor, Nat.one_shiftLeft,
    Nat.testBit_two_pow, Nat.testBit_two_pow_sub_one]
  by_cases hpi : p = i
  · simp [hpi, hi]
  · simp [hpi, hi]

/-- Clearing a bit never increases the bitmap. -/
theorem clearBit128_le (b p : Nat) : clearBit128 b p ≤ b :=
  Nat.and_le_left

/-- Setting a bit below 100 keeps the bitmap below `2^100`. -/
theorem orBit_lt_two_pow (b p : Nat) (hb : b < 2 ^ 100) (hp : p < 100) :
    b ||| (1 <<< p) < 2 ^ 100 := by
  rw [Nat.one_shiftLeft]
  exact Nat.or_lt_two_pow hb (Nat.pow_lt_pow_right (by norm_num) hp)

/-- The top bit found by `Nat.log2` is set. -/
theorem testBit_log2_self (b : Nat) (hb : b ≠ 0) :
    b.testBit (Nat.log2 b) = true := by
  have h1 : 2 ^ Nat.log2 b ≤ b := Nat.log2_self_le hb
  have h2 : b < 2 ^ (Nat.log2 b + 1) := Nat.lt_log2_self
  rw [Nat.pow_succ] at h2
  rw [Nat.testBit_to_div_mod]
  have hdiv : b / 2 ^ Nat.log2 b = 1 :=
    Nat.div_eq_of_lt_le (by simpa using h1) (by omega)
  rw [hdiv]
  decide

/-- The bitmap/queue correspondence after pushing onto FIFO `pr` and
setting bit `pr`. -/
theorem rt_push_iff (l : List (List Task)) (b : Nat) (pr : Nat) (t : Task)
    (hlen : l.length = 100) (hpr : pr < 100)
    (hiff : ∀ p < 100, b.testBit p = true ↔ l.getD p [] ≠ []) :
    ∀ p < 100, (b ||| (1 <<< pr)).testBit p = true ↔
      (l.set pr ((l.getD pr []) ++ [t])).getD p [] ≠ [] := by
  intro p hp
  rw [testBit_orBit]
  by_cases hpe : pr = p
  · subst hpe
    rw [list_getD_set_self _ _ _ _ (by omega)]
    simp
  · rw [list_getD_set_ne _ _ _ _ _ hpe]
    simp [hpe, hiff p hp]

/-- The bitmap/queue correspondence after replacing FIFO `pr` (whose bit
was set) by a shrunk queue, clearing the bit when it became empty. -/
theorem rt_clear_iff (l : List (List Task)) (b : Nat) (pr : Nat)
    (qu2 : List Task) (hlen : l.length = 100) (hpr : pr < 100)
    (hold : b.testBit pr = true)
    (hiff : ∀ p < 100, b.testBit p = true ↔ l.getD p [] ≠ []) :
    ∀ p < 100,
      (if qu2.isEmpty then clearBit128 b pr else b).testBit p = true ↔
      (l.set pr qu2).getD p [] ≠ [] := by
  intro p hp
  by_cases hpe : pr = p
  · subst hpe
    rw [list_getD_set_self _ _ _ _ (by omega)]
    by_cases hq2 : qu2.isEmpty
    · rw [if_pos hq2, testBit_clearBit128 _ _ _ (by omega)]
      simp [List.isEmpty_iff.mp hq2]
    · rw [if_neg hq2]
      have hq2n : qu2 ≠ [] := by
        intro hc
        subst hc
        simp at hq2
      simp [hold, hq2n]
  · rw [list_getD_set_ne _ _ _ _ _ hpe]
    by_cases hq2 : qu2.isEmpty
    · rw [if_pos hq2, testBit_clearBit128 _ _ _ (by omega)]
      simp [hpe, hiff p hp]
    · rw [if_neg hq2]
      exact hiff p hp

/-- Under the invariant, a zero bitmap means every FIFO is empty, so
the total task count is zero as well. -/
theorem rt_bitmap_zero_sum (q : RtRunQueue) (hInv : RtInvariant q)
    (hb : q.bitmap = 0) : (q.queues.map List.length).sum = 0 := by
  obtain ⟨hlen, _, hiff, _⟩ := hInv
  rw [List.sum_eq_zero_iff]
  intro x hx
  obtain ⟨qu, hqu, rfl⟩ := List.mem_map.mp hx
  obtain ⟨i, hi, hig⟩ := List.mem_iff_getElem.mp hqu
  have hgetD : q.queues.getD i [] = qu := by
    rw [List.getD_eq_getElem _ _ hi, hig]
  have hnotne : ¬ q.queues.getD i [] ≠ [] := by
    intro hne
    have := (hiff i (by omega)).mpr hne
    rw [hb] at this
    simp [Nat.zero_testBit] at this
  rw [hgetD] at hnotne
  simp only [ne_eq, not_not] at hnotne
  simp [hnotne]

/-- **C10.** The RT-runqueue invariant — bitmap bit `p` set iff the
priority-`p` FIFO is non-empty (with the bitmap confined to its valid
bits and `nr_running` bounded by the true task count) — is preserved by
`enqueue`, `dequeue`, `requeue_rr` and `pick_next`; consequently, when
the bitmap or `nr_running` is non-zero, `pick_next`'s highest-set-bit
lookup lands on a non-empty FIFO and yields a task. -/
theorem c10_rt_bitmap_invariant :
    (∀ (q : RtRunQueue) (t : Task), RtInvariant q → RtInvariant (q.enqueue t)) ∧
    (∀ (q : RtRunQueue) (t : Task), RtInvariant q → RtInvariant (q.dequeue t)) ∧
    (∀ (q : RtRunQueue) (t : Task), RtInvariant q →
      RtInvariant (q.requeue_rr t)) ∧
    (∀ q : RtRunQueue, RtInvariant q → RtInvariant (q.pick_next).2) ∧
    (∀ q : RtRunQueue, RtInvariant q → (q.bitmap ≠ 0 ∨ q.nr_running ≠ 0) →
      (q.pick_next).1.isSome = true) := by
  have hpickSome : ∀ q : RtRunQueue, RtInvariant q → q.bitmap ≠ 0 →
      (q.pick_next).1.isSome = true := by
    intro q hInv hb
    obtain ⟨hlen, hbound, hiff, hnr⟩ := hInv
    have hlog : Nat.log2 q.bitmap < 100 := (Nat.log2_lt hb).mpr hbound
    have hne : q.queues.getD (Nat.log2 q.bitmap) [] ≠ [] :=
      (hiff _ hlog).mp (testBit_log2_self _ hb)
    unfold RtRunQueue.pick_next
    rw [if_neg hb]
    cases hq : q.queues.getD (Nat.log2 q.bitmap) [] with
    | nil => exact absurd hq hne
    | cons t rest => rfl
  refine ⟨?_, ?_, ?_, ?_, ?_⟩
  · -- enqueue
    intro q t hInv
    obtain ⟨hlen, hbound, hiff, hnr⟩ := hInv
    unfold RtRunQueue.enqueue
    by_cases hp0 : min t.rt_priority 99 = 0
    · rw [if_pos hp0]; exact ⟨hlen, hbound, hiff, hnr⟩
    · rw [if_neg hp0]
      have hplt : min t.rt_priority 99 < 100 := by omega
      have hsum := sumLen_set q.queues (min t.rt_priority 99)
        ((q.queues.getD (min t.rt_priority 99) []) ++ [t]) (by omega)
      simp only [List.length_append, List.length_cons, List.length_nil] at hsum
      refine ⟨?_, ?_, ?_, ?_⟩
      · show (q.queues.set _ _).length = 100
        simpa using hlen
      · exact orBit_lt_two_pow _ _ hbound hplt
      · exact rt_push_iff q.queues q.bitmap _ t hlen hplt hiff
      · show q.nr_running + 1 ≤
          ((q.queues.set (min t.rt_priority 99)
            ((q.queues.getD (min t.rt_priority 99) []) ++ [t])).map
              List.length).sum
        omega
  · -- dequeue
    intro q t hInv
    obtain ⟨hlen, hbound, hiff, hnr⟩ := hInv
    unfold RtRunQueue.dequeue
    by_cases hp0 : min t.rt_priority 99 = 0
    · rw [if_pos hp0]; exact ⟨hlen, hbound, hiff, hnr⟩
    · rw [if_neg hp0]
      by_cases hmem : t ∈ q.queues.getD (min t.rt_priority 99) []
      · rw [if_pos hmem]
        have hplt : min t.rt_priority 99 < 100 := by omega
        have hqlen := List.length_erase_of_mem hmem
        have hqpos : 0 < (q.queues.getD (min t.rt_priority 99) []).length :=
          List.length_pos_of_mem hmem
        have hsum := sumLen_set q.queues (min t.rt_priority 99)
          ((q.queues.getD (min t.rt_priority 99) []).erase t) (by omega)
        have hold : q.bitmap.testBit (min t.rt_priority 99) = true :=
          (hiff _ hplt).mpr (List.ne_nil_of_mem hmem)
        refine ⟨?_, ?_, ?_, ?_⟩
        · show (q.queues.set _ _).length = 100
          simpa using hlen
        · show (if _ then clearBit128 q.bitmap _ else q.bitmap) < 2 ^ 100
          split
          · exact Nat.lt_of_le_of_lt (clearBit128_le _ _) hbound
          · exact hbound
        · exact rt_clear_iff q.queues q.bitmap _ _ hlen hplt hold hiff
        · show q.nr_running - 1 ≤
            ((q.queues.set (min t.rt_priority 99)
              ((q.queues.getD (min t.rt_priority 99) []).erase t)).map
                List.length).sum
          omega
      · rw [if_neg hmem]; exact ⟨hlen, hbound, hiff, hnr⟩
  · -- requeue_rr
    intro q t hInv
    obtain ⟨hlen, hbound, hiff, hnr⟩ := hInv
    unfold RtRunQueue.requeue_rr
    by_cases hp0 : min t.rt_priority 99 = 0
    · rw [if_pos hp0]; exact ⟨hlen, hbound, hiff, hnr⟩
    · rw [if_neg hp0]
      have hplt : min t.rt_priority 99 < 100 := by omega
      have hsum := sumLen_set q.queues (min t.rt_priority 99)
        ((q.queues.getD (min t.rt_priority 99) []) ++ [t]) (by omega)
      simp only [List.length_append, List.length_cons, List.length_nil] at hsum
      refine ⟨?_, ?_, ?_, ?_⟩
      · show (q.queues.set _ _).length = 100
        simpa using hlen
      · exact orBit_lt_two_pow _ _ hbound hplt
      · exact rt_push_iff q.queues q.bitmap _ t hlen hplt hiff
      · show q.nr_running ≤
          ((q.queues.set (min t.rt_priority 99)
            ((q.queues.getD (min t.rt_priority 99) []) ++ [t])).map
              List.length).sum
        omega
  · -- pick_next
    intro q hInv
    obtain ⟨hlen, hbound, hiff, hnr⟩ := hInv
    unfold RtRunQueue.pick_next
    by_cases hb : q.bitmap = 0
    · rw [if_pos hb]; exact ⟨hlen, hbound, hiff, hnr⟩
    · rw [if_neg hb]
      have hlog : Nat.log2 q.bitmap < 100 := (Nat.log2_lt hb).mpr hbound
      cases hq : q.queues.getD (Nat.log2 q.bitmap) [] with
      | nil => exact ⟨hlen, hbound, hiff, hnr⟩
      | cons t rest =>
        have hsum := sumLen_set q.queues (Nat.log2 q.bitmap) rest (by omega)
        rw [hq] at hsum
        simp only [List.length_cons] at hsum
        have hold : q.bitmap.testBit (Nat.log2 q.bitmap) = true :=
          testBit_log2_self _ hb
        have hiff2 := rt_clear_iff q.queues q.bitmap (Nat.log2 q.bitmap) rest
          hlen hlog hold hiff
        refine ⟨?_, ?_, ?_, ?_⟩
        · show (q.queues.set _ _).length = 100
          simpa using hlen
        · show (if _ then clearBit128 q.bitmap _ else q.bitmap) < 2 ^ 100
          split
          · exact Nat.lt_of_le_of_lt (clearBit128_le _ _) hbound
          · exact hbound
        · exact hiff2
        · show q.nr_running - 1 ≤
            ((q.queues.set (Nat.log2 q.bitmap) rest).map List.length).sum
          omega
  · -- pick_next finds a task whenever the bitmap or nr_running is nonzero
    intro q hInv hnz
    rcases hnz with hb | hn
    · exact hpickSome q hInv hb
    · by_cases hb : q.bitmap = 0
      · exfalso
        have hsum := rt_bitmap_zero_sum q hInv hb
        obtain ⟨_, _, _, hnr⟩ := hInv
        omega
      · exact hpickSome q hInv hb

/-- Witness for C10: a priority-50 FIFO task enqueued on a fresh RT
queue preserves the invariant and is found by `pick_next`. -/
theorem c10_rt_bitmap_invariant_witness :
    RtInvariant (RtRunQueue.new.enqueue
      ⟨3, 3, 0, 1024, 0, 50, .fifo, 1, 0x80200000, 0, false, .ready, 0, 0⟩) ∧
    ((RtRunQueue.new.enqueue
      ⟨3, 3, 0, 1024, 0, 50, .fifo, 1, 0x80200000, 0, false, .ready, 0, 0⟩
      ).pick_next).1.isSome = true :=
  ⟨c10_rt_bitmap_invariant.1 RtRunQueue.new _ (by decide),
   c10_rt_bitmap_invariant.2.2.2.2 _ (by decide) (Or.inl (by decide))⟩

/-! ### Helper lemmas for the bitmap allocator (C9) -/

/-- `firstZeroBit` lands on a zero bit. -/
theorem firstZeroBit_testBit (w : Nat) : w.testBit (firstZeroBit w) = false := by
  induction w using Nat.strong_induction_on with
  | _ w ih =>
    unfold firstZeroBit
    by_cases h : w % 2 = 1
    · rw [dif_pos h, Nat.testBit_add_one]
      exact ih (w / 2) (Nat.div_lt_self (by omega) (by omega))
    · rw [dif_neg h, Nat.testBit_zero]
      simp [h]

/-- A value below `2^n` that is not all-ones has a zero bit below `n`. -/
theorem firstZeroBit_lt (n : Nat) : ∀ w, w < 2 ^ n → w ≠ 2 ^ n - 1 →
    firstZeroBit w < n := by
  induction n with
  | zero =>
    intro w hw hne
    norm_num at hw hne
    omega
  | succ n ih =>
    intro w hw hne
    have hA : 0 < 2 ^ n := Nat.two_pow_pos n
    have h2 : (2 : Nat) ^ (n + 1) = 2 * 2 ^ n := by ring
    rw [h2] at hw hne
    unfold firstZeroBit
    by_cases h : w % 2 = 1
    · rw [dif_pos h]
      have ihw := ih (w / 2) (by omega) (by omega)
      omega
    · rw [dif_neg h]
      omega

/-- `marking` preserves the bitmap length. -/
theorem markRange_length (c : Nat) : ∀ (bm : List Nat) (i : Nat),
    (markRange bm i c).length = bm.length := by
  induction c with
  | zero => intro bm i; rfl
  | succ c ih =>
    intro bm i
    show (markRange (bm.set (i / 64)
      ((bm.getD (i / 64) 0) ||| (1 <<< (i % 64)))) (i + 1) c).length = bm.length
    rw [ih, List.length_set]

/-- `markRange` never clears a set bit. -/
theorem markRange_mono (c : Nat) : ∀ (bm : List Nat) (i w b : Nat),
    (bm.getD w 0).testBit b = true →
    ((markRange bm i c).getD w 0).testBit b = true := by
  induction c with
  | zero => intro bm i w b h; exact h
  | succ c ih =>
    intro bm i w b h
    show ((markRange (bm.set (i / 64)
      ((bm.getD (i / 64) 0) ||| (1 <<< (i % 64)))) (i + 1) c).getD w 0).testBit b
        = true
    apply ih
    by_cases hw : i / 64 = w
    · subst hw
      by_cases hlt : i / 64 < bm.length
      · rw [list_getD_set_self _ _ _ _ hlt, testBit_orBit, h]
        simp
      · rw [List.set_eq_of_length_le (by omega)]
        exact h
    · rw [list_getD_set_ne _ _ _ _ _ hw]
      exact h

/-- `markRange` sets the bit of every frame in its range (all of which
lie inside the bitmap). -/
theorem markRange_marks (c : Nat) : ∀ (bm : List Nat) (i : Nat),
    i + c ≤ 64 * bm.length →
    ∀ j < c, ((markRange bm i c).getD ((i + j) / 64) 0).testBit ((i + j) % 64)
      = true := by
  induction c with
  | zero => intro bm i _ j hj; omega
  | succ c ih =>
    intro bm i hlen j hj
    show ((markRange (bm.set (i / 64)
      ((bm.getD (i / 64) 0) ||| (1 <<< (i % 64)))) (i + 1) c).getD
        ((i + j) / 64) 0).testBit ((i + j) % 64) = true
    cases j with
    | zero =>
      apply markRange_mono
      have hlt : i / 64 < bm.length := by omega
      simp only [Nat.add_zero]
      rw [list_getD_set_self _ _ _ _ hlt, testBit_orBit]
      simp
    | succ j' =>
      have hstep := ih (bm.set (i / 64)
          ((bm.getD (i / 64) 0) ||| (1 <<< (i % 64)))) (i + 1)
        (by rw [List.length_set]; omega) j' (by omega)
      have heq : i + (j' + 1) = (i + 1) + j' := by omega
      rw [heq]
      exact hstep

/-- `(x & (1 << b)) != 0` is `testBit`. -/
theorem and_one_shift_ne (x b : Nat) : (x &&& (1 <<< b) != 0) = x.testBit b := by
  rw [Nat.one_shiftLeft, Nat.and_two_pow]
  cases h : x.testBit b
  · simp
  · simp [(Nat.two_pow_pos b).ne']

/-- `isFreeIdx` is the negated `testBit`. -/
theorem isFreeIdx_eq (bm : List Nat) (idx : Nat) :
    isFreeIdx bm idx = !(bm.getD (idx / 64) 0).testBit (idx % 64) := by
  unfold isFreeIdx
  rw [Nat.one_shiftLeft, Nat.and_two_pow]
  cases h : (bm.getD (idx / 64) 0).testBit (idx % 64)
  · simp
  · simp [(Nat.two_pow_pos (idx % 64)).ne']

/-- `is_allocated` as a bit test, for any in-range frame index. -/
theorem is_allocated_eq (a : BitmapFrameAllocator) (ppn idx : Nat)
    (hppn : ppn = a.start_ppn + idx) (hidx : idx < a.total_frames) :
    a.is_allocated ppn = (a.bitmap.getD (idx / 64) 0).testBit (idx % 64) := by
  unfold BitmapFrameAllocator.is_allocated BitmapFrameAllocator.ppn_to_index
  subst hppn
  rw [if_pos (by omega)]
  rw [Nat.add_sub_cancel_left]
  exact and_one_shift_ne _ _

/-- One unfolding step of the next-fit word scan. -/
theorem allocFrameScan_succ (bm : List Nat) (total sw wc off rem : Nat) :
    allocFrameScan bm total sw wc off (rem + 1) =
      (if bm.getD ((sw + off) % wc) 0 ≠ U64_MAX then
        (if ((sw + off) % wc) * 64 + firstZeroBit (bm.getD ((sw + off) % wc) 0)
            < total
          then some ((sw + off) % wc,
            firstZeroBit (bm.getD ((sw + off) % wc) 0))
          else allocFrameScan bm total sw wc (off + 1) rem)
      else allocFrameScan bm total sw wc (off + 1) rem) := by
  rfl

/-- What a successful word scan guarantees: the word index is in range,
the word has a free bit, the bit is its first zero bit, and the frame
index is within the managed range. -/
theorem allocFrameScan_spec (bm : List Nat) (total sw : Nat)
    (hpos : 0 < bm.length) :
    ∀ (rem off wi bi : Nat),
      allocFrameScan bm total sw bm.length off rem = some (wi, bi) →
      wi < bm.length ∧ bm.getD wi 0 ≠ U64_MAX ∧
        bi = firstZeroBit (bm.getD wi 0) ∧ wi * 64 + bi < total := by
  intro rem
  induction rem with
  | zero => intro off wi bi h; simp [allocFrameScan] at h
  | succ rem ih =>
    intro off wi bi h
    rw [allocFrameScan_succ] at h
    by_cases h1 : bm.getD ((sw + off) % bm.length) 0 ≠ U64_MAX
    · rw [if_pos h1] at h
      by_cases h2 : ((sw + off) % bm.length) * 64 +
          firstZeroBit (bm.getD ((sw + off) % bm.length) 0) < total
      · rw [if_pos h2] at h
        simp only [Option.some.injEq, Prod.mk.injEq] at h
        obtain ⟨h3, h4⟩ := h
        subst h3
        subst h4
        exact ⟨Nat.mod_lt _ hpos, h1, rfl, h2⟩
      · rw [if_neg h2] at h
        exact ih _ _ _ h
    · rw [if_neg h1] at h
      exact ih _ _ _ h

/-- One unfolding step of the contiguous scan. -/
theorem contigScan_succ (bm : List Nat) (count idx consec start rem : Nat) :
    contigScan bm count idx consec start (rem + 1) =
      (if isFreeIdx bm idx then
        (if count ≤ consec + 1 then some (if consec = 0 then idx else start)
         else contigScan bm count (idx + 1) (consec + 1)
           (if consec = 0 then idx else start) rem)
      else contigScan bm count (idx + 1) 0 start rem) := by
  rfl

/-- What a successful contiguous scan guarantees: the returned start
index heads a run of `count` free frames that ends within the scanned
range. -/
theorem contigScan_spec (bm : List Nat) (count : Nat) (hc : 1 ≤ count) :
    ∀ (rem idx consec start s : Nat),
      contigScan bm count idx consec start rem = some s →
      consec ≤ count - 1 →
      (consec = 0 ∨ (start + consec = idx ∧
        ∀ j, start ≤ j → j < idx → isFreeIdx bm j = true)) →
      (∀ i < count, isFreeIdx bm (s + i) = true) ∧ s + count ≤ idx + rem := by
  intro rem
  induction rem with
  | zero => intro idx consec start s h; simp [contigScan] at h
  | succ rem ih =>
    intro idx consec start s h hcb hinv
    rw [contigScan_succ] at h
    by_cases hf : isFreeIdx bm idx = true
    · rw [if_pos hf] at h
      by_cases h2 : count ≤ consec + 1
      · rw [if_pos h2] at h
        by_cases h0 : consec = 0
        · rw [if_pos h0] at h
          obtain rfl := Option.some.inj h
          have hcnt : count = 1 := by omega
          refine ⟨?_, by omega⟩
          intro i hi
          have hi0 : i = 0 := by omega
          subst hi0
          simpa using hf
        · rw [if_neg h0] at h
          obtain rfl := Option.some.inj h
          rcases hinv with hinv | ⟨hsi, hfree⟩
          · exact absurd hinv h0
          have hcnt : consec + 1 = count := by omega
          refine ⟨?_, by omega⟩
          intro i hi
          by_cases hlt : start + i < idx
          · exact hfree _ (by omega) hlt
          · have hix : start + i = idx := by omega
            rw [hix]
            exact hf
      · rw [if_neg h2] at h
        by_cases h0 : consec = 0
        · rw [if_pos h0] at h
          obtain ⟨hA, hB⟩ := ih (idx + 1) (consec + 1) idx s h (by omega)
            (Or.inr ⟨by omega, fun j hj1 hj2 => by
              have hji : j = idx := by omega
              rw [hji]; exact hf⟩)
          exact ⟨hA, by omega⟩
        · rw [if_neg h0] at h
          rcases hinv with hinv | ⟨hsi, hfree⟩
          · exact absurd hinv h0
          obtain ⟨hA, hB⟩ := ih (idx + 1) (consec + 1) start s h (by omega)
            (Or.inr ⟨by omega, fun j hj1 hj2 => by
              by_cases hjx : j < idx
              · exact hfree _ hj1 hjx
              · have hji : j = idx := by omega
                rw [hji]; exact hf⟩)
          exact ⟨hA, by omega⟩
    · rw [if_neg hf] at h
      obtain ⟨hA, hB⟩ := ih (idx + 1) 0 start s h (by omega) (Or.inl rfl)
      exact ⟨hA, by omega⟩

/-- **C9.** For the bitmap allocator, `alloc_contiguous(count)` with
`count ≥ 1` returning `Some p` means: the `count` frames
`p .. p+count-1` were all free before the call, are all marked
allocated after it, and `allocated_count` grows by exactly `count`;
`alloc_contiguous(0)` returns `None` with the allocator unchanged. -/
theorem c9_alloc_contiguous (a : BitmapFrameAllocator) (hwf : BitmapWF a) :
    (∀ (count p : Nat) (a2 : BitmapFrameAllocator), 1 ≤ count →
      a.alloc_contiguous count = (some p, a2) →
      (∀ i < count, a.is_allocated (p + i) = false) ∧
      (∀ i < count, a2.is_allocated (p + i) = true) ∧
      a2.allocated_count = a.allocated_count + count) ∧
    a.alloc_contiguous 0 = (none, a) := by
  obtain ⟨hw64, hcov⟩ := hwf
  constructor
  · intro count p a2 hc heq
    unfold BitmapFrameAllocator.alloc_contiguous at heq
    rw [if_neg (by omega : ¬count = 0)] at heq
    by_cases h1 : count = 1
    · subst h1
      rw [if_pos rfl] at heq
      unfold BitmapFrameAllocator.alloc_frame at heq
      by_cases hwc : a.bitmap.length = 0
      · rw [if_pos hwc] at heq
        simp at heq
      · rw [if_neg hwc] at heq
        rcases hscan : allocFrameScan a.bitmap a.total_frames a.alloc_hint
            a.bitmap.length 0 a.bitmap.length with _ | ⟨wi, bi⟩
        · rw [hscan] at heq
          simp at heq
        · rw [hscan] at heq
          simp only [Option.some.injEq, Prod.mk.injEq] at heq
          obtain ⟨hp, ha2⟩ := heq
          obtain ⟨hwi, hmax, hbi, hfr⟩ := allocFrameScan_spec a.bitmap
            a.total_frames a.alloc_hint (by omega) _ _ _ _ hscan
          have hwmem : a.bitmap.getD wi 0 ∈ a.bitmap := by
            rw [List.getD_eq_getElem _ _ hwi]
            exact List.getElem_mem hwi
          have hw2 : a.bitmap.getD wi 0 < 2 ^ 64 := hw64 _ hwmem
          have hbil : bi < 64 := by
            rw [hbi]
            exact firstZeroBit_lt 64 _ hw2 (by simpa [U64_MAX] using hmax)
          have hpv : p = a.start_ppn + (wi * 64 + bi) := by
            rw [← hp]
            rfl
          have hdiv : (wi * 64 + bi) / 64 = wi := by omega
          have hmod : (wi * 64 + bi) % 64 = bi := by omega
          have hbmp : a2.bitmap = a.bitmap.set wi
              ((a.bitmap.getD wi 0) ||| (1 <<< bi)) := by
            rw [← ha2]
          have hstart : a2.start_ppn = a.start_ppn := by
            rw [← ha2]
          have htot : a2.total_frames = a.total_frames := by
            rw [← ha2]
          refine ⟨?_, ?_, by rw [← ha2]⟩
          · intro i hi
            have hi0 : i = 0 := by omega
            subst hi0
            rw [is_allocated_eq a (p + 0) (wi * 64 + bi) (by omega) hfr,
              hdiv, hmod, hbi]
            exact firstZeroBit_testBit _
          · intro i hi
            have hi0 : i = 0 := by omega
            subst hi0
            rw [is_allocated_eq a2 (p + 0) (wi * 64 + bi)
              (by rw [hstart]; omega) (by rw [htot]; exact hfr)]
            rw [hbmp, hdiv, hmod, list_getD_set_self _ _ _ _ hwi, testBit_orBit]
            simp
    · rw [if_neg h1] at heq
      rcases hscan : contigScan a.bitmap count 0 0 0 a.total_frames with _ | s
      · rw [hscan] at heq
        simp at heq
      · rw [hscan] at heq
        simp only [Option.some.injEq, Prod.mk.injEq] at heq
        obtain ⟨hp, ha2⟩ := heq
        obtain ⟨hfreeAll, hbound⟩ :=
          contigScan_spec a.bitmap count hc a.total_frames 0 0 0 s hscan
            (by omega) (Or.inl rfl)
        have hpv : p = a.start_ppn + s := by
          rw [← hp]
          rfl
        have hbmp : a2.bitmap = markRange a.bitmap s count := by
          rw [← ha2]
        have hstart : a2.start_ppn = a.start_ppn := by
          rw [← ha2]
        have htot : a2.total_frames = a.total_frames := by
          rw [← ha2]
        refine ⟨?_, ?_, by rw [← ha2]⟩
        · intro i hi
          have hidx : s + i < a.total_frames := by omega
          rw [is_allocated_eq a (p + i) (s + i) (by omega) hidx]
          have hfree := hfreeAll i hi
          rw [isFreeIdx_eq] at hfree
          simpa using hfree
        · intro i hi
          have hidx : s + i < a.total_frames := by omega
          rw [is_allocated_eq a2 (p + i) (s + i) (by rw [hstart]; omega)
            (by rw [htot]; exact hidx)]
          rw [hbmp]
          exact markRange_marks count a.bitmap s (by omega) i hi
  · rfl

/-- Witness for C9: a two-word bitmap (128 frames) serves a 3-frame
contiguous request at frames 0..2 and a single-frame request, through
the theorem itself. -/
theorem c9_alloc_contiguous_witness :
    ((⟨[0, 0], 4096, 128, 0, 0⟩ :
        BitmapFrameAllocator).alloc_contiguous 3).1 = some 4096 ∧
    (∀ i < 3, (⟨[0, 0], 4096, 128, 0, 0⟩ :
        BitmapFrameAllocator).is_allocated (4096 + i) = false) ∧
    (∀ i < 3, ((⟨[0, 0], 4096, 128, 0, 0⟩ :
        BitmapFrameAllocator).alloc_contiguous 3).2.is_allocated (4096 + i)
      = true) ∧
    ((⟨[0, 0], 4096, 128, 0, 0⟩ :
        BitmapFrameAllocator).alloc_contiguous 3).2.allocated_count = 3 ∧
    (⟨[0, 0], 4096, 128, 0, 0⟩ :
        BitmapFrameAllocator).alloc_contiguous 0 =
      (none, ⟨[0, 0], 4096, 128, 0, 0⟩) := by
  have h := c9_alloc_contiguous ⟨[0, 0], 4096, 128, 0, 0⟩ (by decide)
  have h3 := h.1 3 4096
    (((⟨[0, 0], 4096, 128, 0, 0⟩ :
      BitmapFrameAllocator).alloc_contiguous 3).2) (by decide) (by decide)
  exact ⟨by decide, h3.1, h3.2.1, by decide, h.2⟩

end NPUCore
